import Mathlib

/-!
# The Crop aggregate of `src/assets/domain/crop.go`

A shallow embedding of the Crop aggregate: its data model, the constructor
`CreateCropBatch`, the mutators `ChangeCropType`, `ChangeContainer`,
`AddNewNote`, `RemoveNote`, and the two validation helpers.

Conventions of the embedding.

* A method with a pointer receiver `func (c *Crop) M(args) error` becomes a
  function returning the receiver after the call together with the error
  (`none` is Go's `nil` error).
* The two effects the file uses, `uuid.NewV4()` and `time.Now()`, read from a
  `World` that is passed explicitly and returned when it may have advanced.
* A Go map is a finite map without any order of its own; the order in which a
  `range` statement visits it is an explicit argument.
-/

namespace Tania

/-! ## Types declared outside crop.go -/

/-- A `uuid.UUID` is an array of 16 bytes; it is embedded as the 128-bit number
those bytes spell. The zero value `uuid.UUID{}` is `0`. -/
abbrev UUID : Type := Fin (2 ^ 128)

/-- A `time.Time`, embedded as the count of nanoseconds since the zero value
`time.Time{}`. -/
abbrev Time : Type := Int

/-- Modelled from the spec: the `Code` constants of `CropError`, declared
outside crop.go. One constructor per constant that crop.go names; the spec
lists them as the kinds InvalidArea, InvalidCropType, InvalidContainerType,
InvalidNoteContent and NoteNotFound. -/
inductive CropErrorCode where
  | CropErrorInvalidArea
  | CropErrorInvalidCropType
  | CropContainerErrorInvalidType
  | CropNoteErrorInvalidContent
  | CropNoteErrorNotFound
  deriving DecidableEq, Repr

/-- The one `Code` constant of `AreaError` that crop.go names. The constant is
declared outside crop.go. -/
inductive AreaErrorCode where
  | AreaNoteErrorNotFound
  deriving DecidableEq, Repr

/-- A non-nil Go `error` value as crop.go can return it: a `CropError{Code}`, an
`AreaError{Code}` (two distinct struct types), or an error handed over by the
uuid package. -/
inductive GoError where
  | CropError (Code : CropErrorCode)
  | AreaError (Code : AreaErrorCode)
  | foreign (msg : String)
  deriving DecidableEq, Repr

/-- Modelled from the spec: the `Area` type, declared outside crop.go. crop.go
reads only its `UID` field; the spec says it exposes "a unique identifier usable
for zero-value comparison". All its other fields are the parameter `ρ`. -/
structure Area (ρ : Type) where
  UID : UUID
  rest : ρ
  deriving DecidableEq, Repr

/-- The zero value `Area{}`. -/
def Area.zero {ρ : Type} [Inhabited ρ] : Area ρ :=
  { UID := 0, rest := default }

/-- The functions of the uuid package that convert between identifiers and
strings: `uuid.FromString` (`none` when it returns an error) and
`UUID.String`. The package is an import of crop.go and is kept abstract. -/
structure UUIDCodec where
  FromString : String → Option UUID
  String : UUID → String

/-- The sources of identifiers and timestamps: the outcome of the n-th call of
`uuid.NewV4()` and the reading of the n-th call of `time.Now()`, with the
number of calls made so far. -/
structure World where
  newV4 : Nat → Except GoError UUID
  idCalls : Nat
  clock : Nat → Time
  clockCalls : Nat

/-- One call of `uuid.NewV4()`. -/
def uuidNewV4 (w : World) : Except GoError UUID × World :=
  (w.newV4 w.idCalls, { w with idCalls := w.idCalls + 1 })

/-- One call of `time.Now()`. -/
def timeNow (w : World) : Time × World :=
  (w.clock w.clockCalls, { w with clockCalls := w.clockCalls + 1 })

/-! ## The data model of crop.go -/

/-- A value of the interface type `CropType`: `nil`, a `Seeding{}`, a
`Growing{}`, or a value of any other type with a `Code() string` method (named
by that type). -/
inductive CropType where
  | absent
  | Seeding
  | Growing
  | other (typeName : String)
  deriving DecidableEq, Repr

/-- A value of the interface type `CropContainerType`: `nil`, a `Tray{Cell}`, a
`Pot{}`, or a value of any other type with a `Code() string` method. -/
inductive CropContainerType where
  | absent
  | Tray (Cell : Int)
  | Pot
  | other (typeName : String)
  deriving DecidableEq, Repr

/-- The struct `CropContainer`. The field `Type` is written `Type_`, `Type` being
a keyword. -/
structure CropContainer where
  Quantity : Int
  Type_ : CropContainerType
  deriving DecidableEq, Repr

/-- The zero value `CropContainer{}`. -/
def CropContainer.zero : CropContainer :=
  { Quantity := 0, Type_ := CropContainerType.absent }

/-- The struct `CropNote`. -/
structure CropNote where
  UID : UUID
  Content : String
  CreatedDate : Time
  deriving DecidableEq, Repr

/-- The entries of an allocated `map[uuid.UUID]CropNote`. -/
abbrev NoteEntries : Type := Finmap (fun _ : UUID => CropNote)

/-- A value of type `map[uuid.UUID]CropNote`: `none` is the nil map, `some m`
an allocated map with entries `m`. -/
abbrev NoteMap : Type := Option NoteEntries

namespace NoteMap

/-- The entries of a map; the nil map has none. -/
def entries : NoteMap → NoteEntries
  | none => ∅
  | some m => m

/-- Go's `len(m)`. -/
def len (m : NoteMap) : Nat := (entries m).keys.card

/-- Go's `v, ok := m[k]`, as an option. -/
def get (m : NoteMap) (k : UUID) : Option CropNote := (entries m).lookup k

/-- Go's `delete(m, k)`; a no-op on the nil map. -/
def delete : NoteMap → UUID → NoteMap
  | none, _ => none
  | some m, k => some (m.erase k)

end NoteMap

/-- The struct `Crop`. `ρ` holds the fields of `Area` that crop.go does not
read and `μ` is the type `InventoryMaterial`, both declared outside crop.go.
A slice is a list; the nil slice is the empty list. The field `Type` is written
`Type_`. -/
structure Crop (ρ μ : Type) where
  UID : UUID
  BatchID : String
  InitialArea : Area ρ
  CurrentAreas : List (Area ρ)
  Type_ : CropType
  Inventory : μ
  Container : CropContainer
  Notes : NoteMap
  CreatedDate : Time

/-- The zero value `Crop{}`. -/
def Crop.zero {ρ μ : Type} [Inhabited ρ] [Inhabited μ] : Crop ρ μ :=
  { UID := 0
    BatchID := ""
    InitialArea := Area.zero
    CurrentAreas := []
    Type_ := CropType.absent
    Inventory := default
    Container := CropContainer.zero
    Notes := none
    CreatedDate := 0 }

/-! ## The operations of crop.go -/

section Operations

variable {ρ μ : Type}

/-- The function `func CreateCropBatch(area Area) (Crop, error)`. -/
def CreateCropBatch [Inhabited ρ] [Inhabited μ] (area : Area ρ) (w : World) :
    Crop ρ μ × Option GoError × World :=
  if area.UID = 0 then
    (Crop.zero, some (GoError.CropError CropErrorCode.CropErrorInvalidArea), w)
  else
    match uuidNewV4 w with
    | (Except.error err, w1) => (Crop.zero, some err, w1)
    | (Except.ok uid, w1) =>
      match timeNow w1 with
      | (now, w2) =>
        ({ UID := uid
           BatchID := ""
           InitialArea := area
           CurrentAreas := [area]
           Type_ := CropType.absent
           Inventory := default
           Container := CropContainer.zero
           Notes := none
           CreatedDate := now }, none, w2)

/-- The function `func validateCropType(cropType CropType) error`: a type switch with the
cases `Seeding` and `Growing`. -/
def validateCropType : CropType → Option GoError
  | CropType.Seeding => none
  | CropType.Growing => none
  | _ => some (GoError.CropError CropErrorCode.CropErrorInvalidCropType)

/-- The function `func validateCropContainer(container CropContainer) error`: a type switch
on `container.Type` with the cases `Tray` and `Pot`. -/
def validateCropContainer (container : CropContainer) : Option GoError :=
  match container.Type_ with
  | CropContainerType.Tray _ => none
  | CropContainerType.Pot => none
  | _ => some (GoError.CropError CropErrorCode.CropContainerErrorInvalidType)

/-- The function `func (c *Crop) ChangeCropType(cropType CropType) error`. -/
def ChangeCropType (c : Crop ρ μ) (cropType : CropType) : Crop ρ μ × Option GoError :=
  match validateCropType cropType with
  | some err => (c, some err)
  | none => ({ c with Type_ := cropType }, none)

/-- The function `func (c *Crop) ChangeContainer(container CropContainer) error`. -/
def ChangeContainer (c : Crop ρ μ) (container : CropContainer) :
    Crop ρ μ × Option GoError :=
  match validateCropContainer container with
  | some err => (c, some err)
  | none => ({ c with Container := container }, none)

/-- The function `func (c *Crop) AddNewNote(content string) error`. When `len(c.Notes) == 0`
the field is replaced by a freshly made map; the assignment `c.Notes[uid] =
cropNote` then always meets an allocated map. -/
def AddNewNote (c : Crop ρ μ) (content : String) (w : World) :
    Crop ρ μ × Option GoError × World :=
  if content = "" then
    (c, some (GoError.CropError CropErrorCode.CropNoteErrorInvalidContent), w)
  else
    match uuidNewV4 w with
    | (Except.error err, w1) => (c, some err, w1)
    | (Except.ok uid, w1) =>
      match timeNow w1 with
      | (now, w2) =>
        let cropNote : CropNote := { UID := uid, Content := content, CreatedDate := now }
        let notes : NoteEntries :=
          if NoteMap.len c.Notes = 0 then ∅ else NoteMap.entries c.Notes
        ({ c with Notes := some (notes.insert uid cropNote) }, none, w2)

/-- One iteration of the loop of `RemoveNote`, reaching key `k`. An entry that
was deleted before the loop reached it is not produced; otherwise its value
`v` is compared with `id`. -/
def removeNoteStep (id : UUID) (st : NoteMap × Bool) (k : UUID) : NoteMap × Bool :=
  match NoteMap.get st.1 k with
  | none => st
  | some v => if v.UID = id then (NoteMap.delete st.1 id, true) else st

/-- The function `func (c *Crop) RemoveNote(uid string) error`. `order` lists the keys of
`c.Notes` in the order in which `range c.Notes` visits them. -/
def RemoveNote (codec : UUIDCodec) (c : Crop ρ μ) (uid : String) (order : List UUID) :
    Crop ρ μ × Option GoError :=
  if uid = "" then
    (c, some (GoError.CropError CropErrorCode.CropNoteErrorNotFound))
  else
    match codec.FromString uid with
    | none => (c, some (GoError.AreaError AreaErrorCode.AreaNoteErrorNotFound))
    | some id =>
      match order.foldl (removeNoteStep id) (c.Notes, false) with
      | (notes, found) =>
        if found = false then
          ({ c with Notes := notes },
            some (GoError.CropError CropErrorCode.CropNoteErrorNotFound))
        else
          ({ c with Notes := notes }, none)

end Operations

/-! ## Elapsed time

`CalculateDaysSinceSeeding` calls three functions of Go's time package,
`Time.Sub`, `Duration.Hours` and, through `int(...)`, the conversion of a
float64 to an integer. They are embedded as the package and the language define
them. A float64 is embedded as the rational number it stands for, and an
arithmetic operation on float64 values as the exact operation followed by
rounding to the nearest binary64 value, ties to even. -/

/-- A `time.Duration`: a count of nanoseconds held in an int64. -/
abbrev Duration : Type := Int

/-- The constant `time.Hour`, a Duration. -/
def Hour : Int := 3600000000000

/-- The smallest Duration, `-1 << 63`. -/
def minDuration : Int := -(2 ^ 63)

/-- The largest Duration, `1<<63 - 1`. -/
def maxDuration : Int := 2 ^ 63 - 1

/-- The method `func (t Time) Sub(u Time) Duration` of Go's time package: the
duration `t - u`, and the smallest or largest Duration when `t - u` does not fit
in one. -/
def Time.Sub (t u : Time) : Duration :=
  if t - u < minDuration then minDuration
  else if maxDuration < t - u then maxDuration
  else t - u

/-- The integer nearest to `q`; of two equally near, the even one. -/
def roundHalfEven (q : ℚ) : ℤ :=
  if q - ⌊q⌋ < 1 / 2 then ⌊q⌋
  else if 1 / 2 < q - ⌊q⌋ then ⌊q⌋ + 1
  else if ⌊q⌋ % 2 = 0 then ⌊q⌋ else ⌊q⌋ + 1

/-- The spacing of the binary64 values around a positive `q`: with
`2 ^ e ≤ q < 2 ^ (e + 1)` it is `2 ^ (e - 52)`, a significand of 53 bits, and
`2 ^ (-1074)` in the subnormal range. -/
def ulpF64 (q : ℚ) : ℚ := 2 ^ (max (Int.log 2 q) (-1022) - 52)

/-- The binary64 value nearest to a positive `q`, ties to even. Overflow to
infinity, which starts at `2 ^ 1024`, is left out. -/
def roundF64Pos (q : ℚ) : ℚ := (roundHalfEven (q / ulpF64 q) : ℚ) * ulpF64 q

/-- The binary64 value nearest to `q`, ties to even; binary64 is a
sign-magnitude format, so a negative `q` is rounded as `-q` is. -/
def roundF64 (q : ℚ) : ℚ :=
  if 0 < q then roundF64Pos q else if q < 0 then -roundF64Pos (-q) else 0

/-- The method `func (d Duration) Hours() float64` of Go's time package, whose
body is `hour := d / Hour; nsec := d % Hour; return float64(hour) +
float64(nsec)/(60*60*1e9)`. Go's `/` and `%` on integers truncate toward
zero. -/
def Duration.Hours (d : Duration) : ℚ :=
  roundF64 (roundF64 ((Int.tdiv d Hour : ℤ) : ℚ)
    + roundF64 (roundF64 ((Int.tmod d Hour : ℤ) : ℚ) / 3600000000000))

/-- Go's conversion `int(x)` of a float64 `x`: the fraction is discarded. -/
def truncToInt (x : ℚ) : Int := if 0 ≤ x then ⌊x⌋ else ⌈x⌉

section ElapsedTime

variable {ρ μ : Type}

/-- The function `func (c Crop) CalculateDaysSinceSeeding() int`. The division
`/ 24` is Go's integer division, which truncates toward zero. -/
def CalculateDaysSinceSeeding (c : Crop ρ μ) (w : World) : Int × World :=
  match timeNow w with
  | (now, w1) =>
    let diff := Time.Sub now c.CreatedDate
    let days := Int.tdiv (truncToInt (Duration.Hours diff)) 24
    (days, w1)

end ElapsedTime

/-- An order in which `range m` may visit the map `m`: every key of `m` once,
and nothing else. -/
def IsRangeOrder (m : NoteMap) (order : List UUID) : Prop :=
  order.Nodup ∧ ∀ k, k ∈ order ↔ k ∈ NoteMap.entries m

/-- The invariant that every key of the map is the `UID` of the note stored
under it. -/
def KeysAreUIDs (m : NoteMap) : Prop :=
  ∀ k v, NoteMap.get m k = some v → v.UID = k

/-- The invariant that every stored note has non-empty `Content`. -/
def ContentNonEmpty (m : NoteMap) : Prop :=
  ∀ k v, NoteMap.get m k = some v → v.Content ≠ ""

/-! ## Sequences of calls -/

section Reachability

variable {ρ μ : Type}

/-- One mutator call: `Step codec c d` holds when `d` is the Crop that a call
of `ChangeCropType`, `ChangeContainer`, `AddNewNote` or `RemoveNote` on `c`
leaves behind, whatever the argument, whatever the world (so whatever
identifier is generated, or none), whatever order the loop of `RemoveNote`
visits the keys in, and whether the call returns an error or not. -/
inductive Step (codec : UUIDCodec) : Crop ρ μ → Crop ρ μ → Prop where
  | changeCropType (c : Crop ρ μ) (cropType : CropType) :
      Step codec c (ChangeCropType c cropType).1
  | changeContainer (c : Crop ρ μ) (container : CropContainer) :
      Step codec c (ChangeContainer c container).1
  | addNewNote (c : Crop ρ μ) (content : String) (w : World) :
      Step codec c (AddNewNote c content w).1
  | removeNote (c : Crop ρ μ) (uid : String) (order : List UUID)
      (h : IsRangeOrder c.Notes order) :
      Step codec c (RemoveNote codec c uid order).1

/-- A Crop returned by a call of `CreateCropBatch` that returned no error. -/
def Created [Inhabited ρ] [Inhabited μ] (c : Crop ρ μ) : Prop :=
  ∃ (area : Area ρ) (w : World),
    (CreateCropBatch area w : Crop ρ μ × Option GoError × World).2.1 = none
      ∧ (CreateCropBatch area w : Crop ρ μ × Option GoError × World).1 = c

/-- A Crop reached from a successful `CreateCropBatch` by a finite sequence of
mutator calls. -/
def Reachable [Inhabited ρ] [Inhabited μ] (codec : UUIDCodec) (c : Crop ρ μ) : Prop :=
  ∃ c0, Created c0 ∧ Relation.ReflTransGen (Step codec) c0 c

/-- The direct keyed lookup that the spec proposes in place of the loop of
`RemoveNote`: after the same empty-string and parse checks, delete key `id`
when `id` is a key of `Notes`, and otherwise fail with NoteNotFound and leave
`Notes` untouched. -/
def RemoveNoteKeyed (codec : UUIDCodec) (c : Crop ρ μ) (uid : String) :
    Crop ρ μ × Option GoError :=
  if uid = "" then
    (c, some (GoError.CropError CropErrorCode.CropNoteErrorNotFound))
  else
    match codec.FromString uid with
    | none => (c, some (GoError.AreaError AreaErrorCode.AreaNoteErrorNotFound))
    | some id =>
      if id ∈ NoteMap.entries c.Notes then
        ({ c with Notes := NoteMap.delete c.Notes id }, none)
      else
        (c, some (GoError.CropError CropErrorCode.CropNoteErrorNotFound))

end Reachability

/-! ## Concrete inputs used to instantiate the theorems -/

/-- A codec that knows two strings, "note-1" for identifier 1 and "note-2" for
identifier 2, and rejects every other string. -/
def sampleCodec : UUIDCodec :=
  { FromString := fun s => if s = "note-1" then some 1 else if s = "note-2" then some 2 else none
    String := fun u => if u = 1 then "note-1" else "note-2" }

/-- A world whose n-th generated identifier is n + 1 and whose n-th clock
reading is n + 100. -/
def sampleWorld : World :=
  { newV4 := fun n => Except.ok (Fin.ofNat (n + 1))
    idCalls := 0
    clock := fun n => (n : Int) + 100
    clockCalls := 0 }

/-- An area with a non-zero identifier. -/
def sampleArea : Area Unit := { UID := 7, rest := () }

/-- A crop without notes, as `CreateCropBatch` builds it. -/
def sampleCrop : Crop Unit Unit :=
  { UID := 9
    BatchID := ""
    InitialArea := sampleArea
    CurrentAreas := [sampleArea]
    Type_ := CropType.absent
    Inventory := ()
    Container := CropContainer.zero
    Notes := none
    CreatedDate := 50 }

/-- The note that `AddNewNote("hello")` builds in the sample world. -/
def sampleNote : CropNote := { UID := 1, Content := "hello", CreatedDate := 100 }

/-- The sample crop holding the sample note under its own identifier. -/
def sampleNotedCrop : Crop Unit Unit :=
  { sampleCrop with Notes := some ((∅ : NoteEntries).insert 1 sampleNote) }

/-- The Crop that `CreateCropBatch` returns for the sample area in the sample
world. -/
def sampleCreated : Crop Unit Unit :=
  (CreateCropBatch sampleArea sampleWorld : Crop Unit Unit × Option GoError × World).1

/-- The world that this call of `CreateCropBatch` leaves behind. -/
def sampleWorldAfterCreate : World :=
  (CreateCropBatch sampleArea sampleWorld : Crop Unit Unit × Option GoError × World).2.2

/-- The Crop `sampleCreated` after `AddNewNote("hello")`. -/
def sampleStarted : Crop Unit Unit :=
  (AddNewNote sampleCreated "hello" sampleWorldAfterCreate).1

/-- A second note, of `UID` 2. -/
def sampleOtherNote : CropNote := { UID := 2, Content := "other", CreatedDate := 101 }

/-- A Crop whose `Notes` holds the sample note, of `UID` 1, under key 5, and the
note of `UID` 2 under key 1. -/
def sampleMiskeyedCrop : Crop Unit Unit :=
  { sampleCrop with
    Notes := some (((∅ : NoteEntries).insert 5 sampleNote).insert 1 sampleOtherNote) }

/-- The sample world with the clock reading `t`. -/
def worldAt (t : Time) : World := { sampleWorld with clock := fun _ => t }

/-- The sample crop with a `CreatedDate` one nanosecond short of 171 days after
the instant 50. -/
def sampleFutureCrop : Crop Unit Unit :=
  { sampleCrop with CreatedDate := 14774400000000049 }

/-- The sample crop with a `CreatedDate` 50 hours after the instant 50. -/
def sampleAheadCrop : Crop Unit Unit :=
  { sampleCrop with CreatedDate := 180000000000050 }

/-- The sample world with a generator that hands out the zero identifier. -/
def zeroIdWorld : World := { sampleWorld with newV4 := fun _ => Except.ok 0 }

/-- The sample crop with a `CreatedDate` 200 days after the instant 50. -/
def sampleFarAheadCrop : Crop Unit Unit :=
  { sampleCrop with CreatedDate := 17280000000000050 }

/-! ## Lemmas on maps -/

namespace NoteMap

theorem entries_eq_empty_of_len_eq_zero (m : NoteMap) (h : len m = 0) : entries m = ∅ := by
  apply Finmap.ext_lookup
  intro x
  have hx : x ∉ entries m := by
    intro hmem
    have hk : x ∈ (entries m).keys := Finmap.mem_keys.mpr hmem
    have h0 : (entries m).keys = ∅ := Finset.card_eq_zero.mp h
    rw [h0] at hk
    exact absurd hk (Finset.not_mem_empty x)
  rw [Finmap.lookup_eq_none.mpr hx, Finmap.lookup_empty]

theorem erase_empty (k : UUID) : Finmap.erase k (∅ : NoteEntries) = ∅ := by
  apply Finmap.ext_lookup
  intro x
  by_cases hx : x = k
  · subst hx
    rw [Finmap.lookup_erase, Finmap.lookup_empty]
  · rw [Finmap.lookup_erase_ne hx]

theorem entries_delete (m : NoteMap) (k : UUID) :
    entries (delete m k) = (entries m).erase k := by
  cases m with
  | none => simp [delete, entries, erase_empty]
  | some e => rfl

theorem get_delete_self (m : NoteMap) (k : UUID) : get (delete m k) k = none := by
  simp [get, entries_delete]

theorem get_delete_of_ne (m : NoteMap) {k x : UUID} (h : x ≠ k) :
    get (delete m k) x = get m x := by
  simp [get, entries_delete, Finmap.lookup_erase_ne h]

theorem len_delete_of_mem (m : NoteMap) {k : UUID} (h : k ∈ entries m) :
    len (delete m k) + 1 = len m := by
  have hk : k ∈ (entries m).keys := Finmap.mem_keys.mpr h
  have hpos : 0 < (entries m).keys.card := Finset.card_pos.mpr ⟨k, hk⟩
  unfold len
  rw [entries_delete, Finmap.keys_erase, Finset.card_erase_of_mem hk]
  omega

theorem keys_insert (e : NoteEntries) (k : UUID) (v : CropNote) :
    (e.insert k v).keys = Insert.insert k e.keys := by
  ext x
  simp [Finmap.mem_keys, Finmap.mem_insert]

theorem len_insert_of_not_mem (e : NoteEntries) {k : UUID} (v : CropNote) (h : k ∉ e) :
    len (some (e.insert k v)) = e.keys.card + 1 := by
  have hk : k ∉ e.keys := fun hmem => h (Finmap.mem_keys.mp hmem)
  simp only [len, entries]
  rw [keys_insert, Finset.card_insert_of_not_mem hk]

theorem erase_insert_of_not_mem (e : NoteEntries) {k : UUID} (v : CropNote) (h : k ∉ e) :
    (e.insert k v).erase k = e := by
  apply Finmap.ext_lookup
  intro x
  by_cases hx : x = k
  · subst hx
    rw [Finmap.lookup_erase, Finmap.lookup_eq_none.mpr h]
  · rw [Finmap.lookup_erase_ne hx, Finmap.lookup_insert_of_ne _ hx]

end NoteMap

/-- What `AddNewNote` stores into: the entries of the map after the
`len(c.Notes) == 0` guard are the entries before it. -/
theorem guard_entries (m : NoteMap) :
    (if NoteMap.len m = 0 then (∅ : NoteEntries) else NoteMap.entries m) = NoteMap.entries m := by
  by_cases h : NoteMap.len m = 0
  · rw [if_pos h, NoteMap.entries_eq_empty_of_len_eq_zero m h]
  · rw [if_neg h]

/-- A map in which no stored note has `UID = id` is left as it is by the loop
of `RemoveNote`, and the flag keeps its value, in whatever order and over
whatever keys the loop runs. -/
theorem foldl_removeNoteStep_of_no_match (id : UUID) (order : List UUID) (st : NoteMap × Bool)
    (h : ∀ k v, NoteMap.get st.1 k = some v → v.UID ≠ id) :
    order.foldl (removeNoteStep id) st = st := by
  induction order with
  | nil => rfl
  | cons k ks ih =>
    have hstep : removeNoteStep id st k = st := by
      unfold removeNoteStep
      cases hg : NoteMap.get st.1 k with
      | none => rfl
      | some v => simp [h k v hg]
    rw [List.foldl_cons, hstep, ih]

/-- When every key is the `UID` of its value, deleting key `id` leaves no note
with `UID = id`. -/
theorem no_match_after_delete (m : NoteMap) (id : UUID) (hinv : KeysAreUIDs m) :
    ∀ k v, NoteMap.get (NoteMap.delete m id) k = some v → v.UID ≠ id := by
  intro k v hg hv
  by_cases hk : k = id
  · subst hk
    rw [NoteMap.get_delete_self] at hg
    exact Option.noConfusion hg
  · rw [NoteMap.get_delete_of_ne m hk] at hg
    exact hk ((hinv k v hg).symm.trans hv)

/-- When every key is the `UID` of its value and `id` is not a key, no note has
`UID = id`. -/
theorem no_match_of_not_mem (m : NoteMap) (id : UUID) (hinv : KeysAreUIDs m)
    (hid : id ∉ NoteMap.entries m) :
    ∀ k v, NoteMap.get m k = some v → v.UID ≠ id := by
  intro k v hg hv
  have hk : k = id := (hinv k v hg).symm.trans hv
  subst hk
  exact hid (Finmap.mem_of_lookup_eq_some hg)

/-- When every key is the `UID` of its value, `id` is a key and the loop of
`RemoveNote` reaches `id`, the loop ends with key `id` deleted and the flag
set. -/
theorem foldl_removeNoteStep_of_mem (m : NoteMap) (id : UUID) (order : List UUID)
    (hinv : KeysAreUIDs m) (hid : id ∈ NoteMap.entries m) (hord : id ∈ order) :
    order.foldl (removeNoteStep id) (m, false) = (NoteMap.delete m id, true) := by
  induction order with
  | nil => exact absurd hord (List.not_mem_nil id)
  | cons k ks ih =>
    rw [List.foldl_cons]
    by_cases hk : k = id
    · subst hk
      obtain ⟨v, hv⟩ := Finmap.mem_iff.mp hid
      have hstep : removeNoteStep k (m, false) k = (NoteMap.delete m k, true) := by
        have hv2 : NoteMap.get m k = some v := hv
        simp [removeNoteStep, hv2, hinv k v hv2]
      rw [hstep]
      exact foldl_removeNoteStep_of_no_match k ks _ (no_match_after_delete m k hinv)
    · have hstep : removeNoteStep id (m, false) k = (m, false) := by
        unfold removeNoteStep
        cases hg : NoteMap.get m k with
        | none => simp [hg]
        | some v =>
          have hne : v.UID ≠ id := fun hv => hk ((hinv k v hg).symm.trans hv)
          simp [hg, hne]
      rw [hstep]
      have htail : id ∈ ks := by
        rcases List.mem_cons.mp hord with h | h
        · exact absurd h.symm hk
        · exact h
      exact ih htail

theorem keysAreUIDs_nil : KeysAreUIDs none := by
  intro k v h
  simp [NoteMap.get, NoteMap.entries] at h

theorem keysAreUIDs_insert (m : NoteMap) (k : UUID) (v : CropNote) (hinv : KeysAreUIDs m)
    (hv : v.UID = k) : KeysAreUIDs (some ((NoteMap.entries m).insert k v)) := by
  intro x n h
  by_cases hx : x = k
  · subst hx
    have h2 : (Finmap.lookup x ((NoteMap.entries m).insert x v)) = some n := h
    rw [Finmap.lookup_insert] at h2
    rw [← Option.some.inj h2]
    exact hv
  · have h2 : (Finmap.lookup x ((NoteMap.entries m).insert k v)) = some n := h
    rw [Finmap.lookup_insert_of_ne _ hx] at h2
    exact hinv x n h2

section OperationLemmas

variable {ρ μ : Type}

/-- The successful path of `AddNewNote`. -/
theorem addNewNote_of_ok (c : Crop ρ μ) (s : String) (w : World) (u : UUID) (t : Time)
    (hs : s ≠ "") (hu : w.newV4 w.idCalls = Except.ok u) (ht : w.clock w.clockCalls = t) :
    AddNewNote c s w
      = ({ c with Notes := some ((NoteMap.entries c.Notes).insert u
              { UID := u, Content := s, CreatedDate := t }) },
         none,
         { w with idCalls := w.idCalls + 1, clockCalls := w.clockCalls + 1 }) := by
  simp [AddNewNote, hs, uuidNewV4, timeNow, hu, ht, guard_entries]

/-- The path of `RemoveNote` on which the identifier is a key. -/
theorem removeNote_of_mem (codec : UUIDCodec) (c : Crop ρ μ) (s : String) (id : UUID)
    (order : List UUID) (hs : s ≠ "") (hparse : codec.FromString s = some id)
    (hinv : KeysAreUIDs c.Notes) (hid : id ∈ NoteMap.entries c.Notes) (hord : id ∈ order) :
    RemoveNote codec c s order = ({ c with Notes := NoteMap.delete c.Notes id }, none) := by
  simp [RemoveNote, hs, hparse, foldl_removeNoteStep_of_mem c.Notes id order hinv hid hord]

/-- The path of `RemoveNote` on which the identifier is not a key. -/
theorem removeNote_of_not_mem (codec : UUIDCodec) (c : Crop ρ μ) (s : String) (id : UUID)
    (order : List UUID) (hs : s ≠ "") (hparse : codec.FromString s = some id)
    (hinv : KeysAreUIDs c.Notes) (hid : id ∉ NoteMap.entries c.Notes) :
    RemoveNote codec c s order
      = (c, some (GoError.CropError CropErrorCode.CropNoteErrorNotFound)) := by
  have hloop := foldl_removeNoteStep_of_no_match id order (c.Notes, false)
    (no_match_of_not_mem c.Notes id hinv hid)
  simp [RemoveNote, hs, hparse, hloop]

/-- The path of `RemoveNote` on which the string does not parse. -/
theorem removeNote_of_parse_error (codec : UUIDCodec) (c : Crop ρ μ) (s : String)
    (order : List UUID) (hs : s ≠ "") (hparse : codec.FromString s = none) :
    RemoveNote codec c s order
      = (c, some (GoError.AreaError AreaErrorCode.AreaNoteErrorNotFound)) := by
  simp [RemoveNote, hs, hparse]

end OperationLemmas

/-! ## Concrete instances -/

theorem sampleNotedCrop_keysAreUIDs : KeysAreUIDs sampleNotedCrop.Notes :=
  keysAreUIDs_insert none 1 sampleNote keysAreUIDs_nil rfl

theorem sampleNotedCrop_rangeOrder : IsRangeOrder sampleNotedCrop.Notes [1] := by
  refine ⟨by simp, ?_⟩
  intro k
  simp [sampleNotedCrop, NoteMap.entries, Finmap.mem_insert, Finmap.not_mem_empty]

/-! ## Construction -/

section Construction

variable {ρ μ : Type} [Inhabited ρ] [Inhabited μ]

/-- C1: for an area whose identifier is the zero identifier, `CreateCropBatch`
returns the error `CropError{CropErrorInvalidArea}` in every world (whatever the
identifier generator and the clock would produce, and without advancing
either), and the Crop returned with it is the zero Crop: zero `UID`, empty
`CurrentAreas`, nil `Notes`. -/
theorem createCropBatch_zero_area (area : Area ρ) (w : World) (h : area.UID = 0) :
    (CreateCropBatch area w : Crop ρ μ × Option GoError × World)
        = (Crop.zero, some (GoError.CropError CropErrorCode.CropErrorInvalidArea), w)
      ∧ (Crop.zero : Crop ρ μ).UID = 0
      ∧ (Crop.zero : Crop ρ μ).CurrentAreas = []
      ∧ (Crop.zero : Crop ρ μ).Notes = none := by
  refine ⟨?_, rfl, rfl, rfl⟩
  simp [CreateCropBatch, h]

/-- C2: for an area `a` whose identifier is not zero, when the next generated
identifier is `u` and the next clock reading is `t`, `CreateCropBatch a`
returns no error and the Crop with `UID = u`, `InitialArea = a`,
`CurrentAreas = [a]`, `CreatedDate = t` and every other field at its zero
value; the generator and the clock have each been read once. -/
theorem createCropBatch_valid_area (a : Area ρ) (w : World) (u : UUID) (t : Time)
    (h : a.UID ≠ 0) (hu : w.newV4 w.idCalls = Except.ok u) (ht : w.clock w.clockCalls = t) :
    (CreateCropBatch a w : Crop ρ μ × Option GoError × World)
      = ({ UID := u
           BatchID := ""
           InitialArea := a
           CurrentAreas := [a]
           Type_ := CropType.absent
           Inventory := default
           Container := { Quantity := 0, Type_ := CropContainerType.absent }
           Notes := none
           CreatedDate := t },
         none,
         { w with idCalls := w.idCalls + 1, clockCalls := w.clockCalls + 1 }) := by
  simp [CreateCropBatch, h, uuidNewV4, timeNow, hu, ht, CropContainer.zero]

end Construction

/-- The instance of C1 at the zero area in the sample world. -/
theorem createCropBatch_zero_area_witness :
    (CreateCropBatch (Area.zero : Area Unit) sampleWorld : Crop Unit Unit × Option GoError × World)
        = (Crop.zero, some (GoError.CropError CropErrorCode.CropErrorInvalidArea), sampleWorld)
      ∧ (Crop.zero : Crop Unit Unit).UID = 0
      ∧ (Crop.zero : Crop Unit Unit).CurrentAreas = []
      ∧ (Crop.zero : Crop Unit Unit).Notes = none :=
  createCropBatch_zero_area Area.zero sampleWorld rfl

/-- The instance of C2 at the sample area in the sample world: the identifier
is 1 and the timestamp 100. -/
theorem createCropBatch_valid_area_witness :
    (CreateCropBatch sampleArea sampleWorld : Crop Unit Unit × Option GoError × World)
      = ({ UID := 1
           BatchID := ""
           InitialArea := sampleArea
           CurrentAreas := [sampleArea]
           Type_ := CropType.absent
           Inventory := default
           Container := { Quantity := 0, Type_ := CropContainerType.absent }
           Notes := none
           CreatedDate := 100 },
         none,
         { sampleWorld with idCalls := 1, clockCalls := 1 }) :=
  createCropBatch_valid_area sampleArea sampleWorld 1 100 (by decide) rfl rfl

/-! ## Type and container mutation -/

section Mutation

variable {ρ μ : Type}

/-- C3: for every Crop and every crop-type value `v`: when `v` is `Seeding` or
`Growing`, `ChangeCropType v` returns no error and leaves the Crop with
`Type = v`; when `v` is anything else (nil, or a value of another type), it
returns `CropError{CropErrorInvalidCropType}` and `Type` is what it was. -/
theorem changeCropType_spec (c : Crop ρ μ) (v : CropType) :
    ((v = CropType.Seeding ∨ v = CropType.Growing) →
        ChangeCropType c v = ({ c with Type_ := v }, none)
          ∧ (ChangeCropType c v).1.Type_ = v)
      ∧ (¬ (v = CropType.Seeding ∨ v = CropType.Growing) →
        (ChangeCropType c v).2
            = some (GoError.CropError CropErrorCode.CropErrorInvalidCropType)
          ∧ (ChangeCropType c v).1.Type_ = c.Type_) := by
  cases v <;> simp [ChangeCropType, validateCropType]

/-- C4: for every Crop and every container value `k`: when `k.Type` is a
`Tray` (of any `Cell`) or a `Pot`, `ChangeContainer k` returns no error for
every integer `k.Quantity` and leaves the Crop with `Container = k`; when
`k.Type` is anything else (nil included), it returns
`CropError{CropContainerErrorInvalidType}` and `Container` is what it was. -/
theorem changeContainer_spec (c : Crop ρ μ) (k : CropContainer) :
    (((∃ cell, k.Type_ = CropContainerType.Tray cell) ∨ k.Type_ = CropContainerType.Pot) →
        ChangeContainer c k = ({ c with Container := k }, none)
          ∧ (ChangeContainer c k).1.Container = k)
      ∧ (¬ ((∃ cell, k.Type_ = CropContainerType.Tray cell) ∨ k.Type_ = CropContainerType.Pot) →
        (ChangeContainer c k).2
            = some (GoError.CropError CropErrorCode.CropContainerErrorInvalidType)
          ∧ (ChangeContainer c k).1.Container = c.Container) := by
  obtain ⟨q, ty⟩ := k
  cases ty <;> simp [ChangeContainer, validateCropContainer]

end Mutation

/-! ## Note management -/

section Notes

variable {ρ μ : Type}

/-- C5: for every Crop, `AddNewNote("")` returns
`CropError{CropNoteErrorInvalidContent}`; the world is the one it was given (the
identifier generator has not been called), and `Notes` is unchanged, so it has
the same size and the same entries. -/
theorem addNewNote_empty_content (c : Crop ρ μ) (w : World) :
    AddNewNote c "" w
        = (c, some (GoError.CropError CropErrorCode.CropNoteErrorInvalidContent), w)
      ∧ (AddNewNote c "" w).2.2.idCalls = w.idCalls
      ∧ NoteMap.len (AddNewNote c "" w).1.Notes = NoteMap.len c.Notes
      ∧ (AddNewNote c "" w).1.Notes = c.Notes := by
  simp [AddNewNote]

/-- C6: for every Crop (its `Notes` nil, empty or populated), every non-empty
content `s`, when the next generated identifier `u` is not a key of `Notes` and
the next clock reading is `t`: `AddNewNote s` returns no error, `len(Notes)`
grows by exactly 1, key `u` holds the note `{UID: u, Content: s, CreatedDate:
t}`, and every entry present before is present with the same value. -/
theorem addNewNote_fresh (c : Crop ρ μ) (s : String) (w : World) (u : UUID) (t : Time)
    (hs : s ≠ "") (hu : w.newV4 w.idCalls = Except.ok u) (ht : w.clock w.clockCalls = t)
    (hfresh : u ∉ NoteMap.entries c.Notes) :
    (AddNewNote c s w).2.1 = none
      ∧ NoteMap.len (AddNewNote c s w).1.Notes = NoteMap.len c.Notes + 1
      ∧ NoteMap.get (AddNewNote c s w).1.Notes u
          = some { UID := u, Content := s, CreatedDate := t }
      ∧ ∀ k v, NoteMap.get c.Notes k = some v →
          NoteMap.get (AddNewNote c s w).1.Notes k = some v := by
  rw [addNewNote_of_ok c s w u t hs hu ht]
  refine ⟨rfl, ?_, ?_, ?_⟩
  · exact NoteMap.len_insert_of_not_mem _ _ hfresh
  · exact Finmap.lookup_insert _
  · intro k v hk
    have hne : k ≠ u := by
      intro h
      subst h
      exact hfresh (Finmap.mem_of_lookup_eq_some hk)
    show Finmap.lookup k ((NoteMap.entries c.Notes).insert u _) = some v
    rw [Finmap.lookup_insert_of_ne _ hne]
    exact hk

/-- C7: for every Crop whose `Notes` keys each equal the `UID` of their value,
and every key `u` of `Notes`: `RemoveNote` of the string encoding of `u` (a
non-empty string that parses back to `u`), with the loop visiting the keys in
any order, returns no error, `len(Notes)` decreases by exactly 1, `u` is no
longer a key, and every other key holds what it held. -/
theorem removeNote_existing (codec : UUIDCodec) (c : Crop ρ μ) (u : UUID) (order : List UUID)
    (hinv : KeysAreUIDs c.Notes) (hu : u ∈ NoteMap.entries c.Notes)
    (hne : codec.String u ≠ "") (hparse : codec.FromString (codec.String u) = some u)
    (hord : IsRangeOrder c.Notes order) :
    (RemoveNote codec c (codec.String u) order).2 = none
      ∧ NoteMap.len (RemoveNote codec c (codec.String u) order).1.Notes + 1
          = NoteMap.len c.Notes
      ∧ NoteMap.get (RemoveNote codec c (codec.String u) order).1.Notes u = none
      ∧ ∀ k, k ≠ u →
          NoteMap.get (RemoveNote codec c (codec.String u) order).1.Notes k
            = NoteMap.get c.Notes k := by
  rw [removeNote_of_mem codec c _ u order hne hparse hinv hu ((hord.2 u).mpr hu)]
  refine ⟨rfl, ?_, ?_, ?_⟩
  · exact NoteMap.len_delete_of_mem c.Notes hu
  · exact NoteMap.get_delete_self c.Notes u
  · intro k hk
    exact NoteMap.get_delete_of_ne c.Notes hk

/-- C8: for every Crop whose `Notes` keys each equal the `UID` of their value:
`RemoveNote("")` returns `CropError{CropNoteErrorNotFound}`, and so does
`RemoveNote` of the string encoding of any identifier that is not a key of
`Notes`; in both cases the Crop, and with it `Notes`, is unchanged. -/
theorem removeNote_unknown (codec : UUIDCodec) (c : Crop ρ μ) (order : List UUID)
    (hinv : KeysAreUIDs c.Notes) :
    (RemoveNote codec c "" order
        = (c, some (GoError.CropError CropErrorCode.CropNoteErrorNotFound))
      ∧ (RemoveNote codec c "" order).1.Notes = c.Notes)
    ∧ ∀ u, codec.FromString (codec.String u) = some u → u ∉ NoteMap.entries c.Notes →
        RemoveNote codec c (codec.String u) order
            = (c, some (GoError.CropError CropErrorCode.CropNoteErrorNotFound))
          ∧ (RemoveNote codec c (codec.String u) order).1.Notes = c.Notes := by
  have hempty : RemoveNote codec c "" order
      = (c, some (GoError.CropError CropErrorCode.CropNoteErrorNotFound)) := by
    simp [RemoveNote]
  refine ⟨⟨hempty, by rw [hempty]⟩, ?_⟩
  intro u hparse hu
  by_cases hs : codec.String u = ""
  · rw [hs]
    exact ⟨hempty, by rw [hempty]⟩
  · have h := removeNote_of_not_mem codec c _ u order hs hparse hinv hu
    exact ⟨h, by rw [h]⟩

/-- C10: for every Crop whose `Notes` keys each equal the `UID` of their value,
every non-empty content `s`, when the next generated identifier `u` is not a
key of `Notes`: `AddNewNote s` followed by `RemoveNote` of the string encoding
of `u` both return no error, and `Notes` then has the size and the entries it
had before `AddNewNote`. -/
theorem addNewNote_removeNote_roundtrip (codec : UUIDCodec) (c : Crop ρ μ) (s : String)
    (w : World) (u : UUID) (order : List UUID)
    (hinv : KeysAreUIDs c.Notes) (hs : s ≠ "") (hu : w.newV4 w.idCalls = Except.ok u)
    (hfresh : u ∉ NoteMap.entries c.Notes)
    (hne : codec.String u ≠ "") (hparse : codec.FromString (codec.String u) = some u)
    (hord : IsRangeOrder (AddNewNote c s w).1.Notes order) :
    (AddNewNote c s w).2.1 = none
      ∧ (RemoveNote codec (AddNewNote c s w).1 (codec.String u) order).2 = none
      ∧ NoteMap.len (RemoveNote codec (AddNewNote c s w).1 (codec.String u) order).1.Notes
          = NoteMap.len c.Notes
      ∧ NoteMap.entries (RemoveNote codec (AddNewNote c s w).1 (codec.String u) order).1.Notes
          = NoteMap.entries c.Notes := by
  rw [addNewNote_of_ok c s w u _ hs hu rfl] at hord ⊢
  have hmem : u ∈ (NoteMap.entries c.Notes).insert u
      { UID := u, Content := s, CreatedDate := w.clock w.clockCalls } :=
    Finmap.mem_insert.mpr (Or.inl rfl)
  have hinv2 := keysAreUIDs_insert c.Notes u
    { UID := u, Content := s, CreatedDate := w.clock w.clockCalls } hinv rfl
  have hrem := removeNote_of_mem codec
    ({ c with Notes := some ((NoteMap.entries c.Notes).insert u
        { UID := u, Content := s, CreatedDate := w.clock w.clockCalls }) } : Crop ρ μ)
    (codec.String u) u order hne hparse hinv2 hmem ((hord.2 u).mpr hmem)
  have hent : NoteMap.entries (NoteMap.delete (some ((NoteMap.entries c.Notes).insert u
      { UID := u, Content := s, CreatedDate := w.clock w.clockCalls })) u)
      = NoteMap.entries c.Notes :=
    NoteMap.erase_insert_of_not_mem _ _ hfresh
  refine ⟨rfl, ?_, ?_, ?_⟩
  · rw [hrem]
  · rw [hrem]
    show (NoteMap.entries _).keys.card = _
    rw [hent]
    rfl
  · rw [hrem]
    exact hent

end Notes

/-- C9, evaluated at the string "not-a-uuid", which the codec rejects: the
error `RemoveNote` returns is `AreaError{AreaNoteErrorNotFound}`, a value of the
area error type, and not the `CropError{CropNoteErrorNotFound}` that the same
call returns for the empty string; the Crop, and with it `Notes`, is
unchanged. -/
theorem removeNote_malformed_returns_area_error :
    RemoveNote sampleCodec sampleNotedCrop "not-a-uuid" [1]
        = (sampleNotedCrop, some (GoError.AreaError AreaErrorCode.AreaNoteErrorNotFound))
      ∧ (RemoveNote sampleCodec sampleNotedCrop "not-a-uuid" [1]).2
          ≠ some (GoError.CropError CropErrorCode.CropNoteErrorNotFound)
      ∧ (RemoveNote sampleCodec sampleNotedCrop "" [1]).2
          = some (GoError.CropError CropErrorCode.CropNoteErrorNotFound)
      ∧ (RemoveNote sampleCodec sampleNotedCrop "not-a-uuid" [1]).1.Notes
          = sampleNotedCrop.Notes := by
  have h := removeNote_of_parse_error sampleCodec sampleNotedCrop "not-a-uuid" [1]
    (by decide) (by decide)
  refine ⟨h, ?_, ?_, ?_⟩
  · rw [h]
    decide
  · simp [RemoveNote]
  · rw [h]

/-- The instance of C6 at the sample crop, whose `Notes` is nil, in the sample
world: the note gets identifier 1 and timestamp 100. -/
theorem addNewNote_fresh_witness :
    (AddNewNote sampleCrop "hello" sampleWorld).2.1 = none
      ∧ NoteMap.len (AddNewNote sampleCrop "hello" sampleWorld).1.Notes
          = NoteMap.len sampleCrop.Notes + 1
      ∧ NoteMap.get (AddNewNote sampleCrop "hello" sampleWorld).1.Notes 1
          = some { UID := 1, Content := "hello", CreatedDate := 100 }
      ∧ ∀ k v, NoteMap.get sampleCrop.Notes k = some v →
          NoteMap.get (AddNewNote sampleCrop "hello" sampleWorld).1.Notes k = some v :=
  addNewNote_fresh sampleCrop "hello" sampleWorld 1 100 (by decide) rfl rfl
    (by simp [sampleCrop, NoteMap.entries, Finmap.not_mem_empty])

/-- The instance of C7 at the sample crop holding one note, removed by the
string "note-1". -/
theorem removeNote_existing_witness :
    (RemoveNote sampleCodec sampleNotedCrop (sampleCodec.String 1) [1]).2 = none
      ∧ NoteMap.len (RemoveNote sampleCodec sampleNotedCrop (sampleCodec.String 1) [1]).1.Notes + 1
          = NoteMap.len sampleNotedCrop.Notes
      ∧ NoteMap.get (RemoveNote sampleCodec sampleNotedCrop (sampleCodec.String 1) [1]).1.Notes 1
          = none
      ∧ ∀ k, k ≠ 1 →
          NoteMap.get (RemoveNote sampleCodec sampleNotedCrop (sampleCodec.String 1) [1]).1.Notes k
            = NoteMap.get sampleNotedCrop.Notes k :=
  removeNote_existing sampleCodec sampleNotedCrop 1 [1] sampleNotedCrop_keysAreUIDs
    (by decide) (by decide) (by decide) sampleNotedCrop_rangeOrder

/-- The instance of C8 at the sample crop holding one note. -/
theorem removeNote_unknown_witness :
    (RemoveNote sampleCodec sampleNotedCrop "" [1]
        = (sampleNotedCrop, some (GoError.CropError CropErrorCode.CropNoteErrorNotFound))
      ∧ (RemoveNote sampleCodec sampleNotedCrop "" [1]).1.Notes = sampleNotedCrop.Notes)
    ∧ ∀ u, sampleCodec.FromString (sampleCodec.String u) = some u →
        u ∉ NoteMap.entries sampleNotedCrop.Notes →
        RemoveNote sampleCodec sampleNotedCrop (sampleCodec.String u) [1]
            = (sampleNotedCrop, some (GoError.CropError CropErrorCode.CropNoteErrorNotFound))
          ∧ (RemoveNote sampleCodec sampleNotedCrop (sampleCodec.String u) [1]).1.Notes
              = sampleNotedCrop.Notes :=
  removeNote_unknown sampleCodec sampleNotedCrop [1] sampleNotedCrop_keysAreUIDs

/-- The instance of C10 at the sample crop, whose `Notes` is nil, in the sample
world: the note "hello" is added under identifier 1 and removed by the string
"note-1". -/
theorem addNewNote_removeNote_roundtrip_witness :
    (AddNewNote sampleCrop "hello" sampleWorld).2.1 = none
      ∧ (RemoveNote sampleCodec (AddNewNote sampleCrop "hello" sampleWorld).1
            (sampleCodec.String 1) [1]).2 = none
      ∧ NoteMap.len (RemoveNote sampleCodec (AddNewNote sampleCrop "hello" sampleWorld).1
            (sampleCodec.String 1) [1]).1.Notes
          = NoteMap.len sampleCrop.Notes
      ∧ NoteMap.entries (RemoveNote sampleCodec (AddNewNote sampleCrop "hello" sampleWorld).1
            (sampleCodec.String 1) [1]).1.Notes
          = NoteMap.entries sampleCrop.Notes :=
  addNewNote_removeNote_roundtrip sampleCodec sampleCrop "hello" sampleWorld 1 [1]
    keysAreUIDs_nil (by decide) rfl (by simp [sampleCrop, NoteMap.entries, Finmap.not_mem_empty])
    (by decide) (by decide) sampleNotedCrop_rangeOrder

/-! ## The loop of `RemoveNote` on an arbitrary map -/

theorem delete_delete (m : NoteMap) (id : UUID) :
    NoteMap.delete (NoteMap.delete m id) id = NoteMap.delete m id := by
  cases m with
  | none => rfl
  | some e =>
    show some ((e.erase id).erase id) = some (e.erase id)
    congr 1
    apply Finmap.ext_lookup
    intro x
    by_cases hx : x = id
    · subst hx
      rw [Finmap.lookup_erase, Finmap.lookup_erase]
    · rw [Finmap.lookup_erase_ne hx]

/-- One iteration either leaves the state as it is or deletes key `id` and
sets the flag. -/
theorem removeNoteStep_cases (id : UUID) (st : NoteMap × Bool) (k : UUID) :
    removeNoteStep id st k = st ∨ removeNoteStep id st k = (NoteMap.delete st.1 id, true) := by
  unfold removeNoteStep
  cases NoteMap.get st.1 k with
  | none => exact Or.inl rfl
  | some v =>
    by_cases hv : v.UID = id
    · right
      simp [hv]
    · left
      simp [hv]

/-- Once key `id` is deleted and the flag set, the loop changes nothing. -/
theorem foldl_removeNoteStep_after_delete (id : UUID) (order : List UUID) (m : NoteMap) :
    order.foldl (removeNoteStep id) (NoteMap.delete m id, true) = (NoteMap.delete m id, true) := by
  induction order with
  | nil => rfl
  | cons k ks ih =>
    rw [List.foldl_cons]
    rcases removeNoteStep_cases id (NoteMap.delete m id, true) k with h | h
    · rw [h, ih]
    · rw [h]
      show List.foldl (removeNoteStep id) (NoteMap.delete (NoteMap.delete m id) id, true) ks = _
      rw [delete_delete, ih]

/-- The loop ends in the state it started in, or with key `id` deleted and the
flag set. -/
theorem foldl_removeNoteStep_cases (id : UUID) (order : List UUID) (st : NoteMap × Bool) :
    order.foldl (removeNoteStep id) st = st
      ∨ order.foldl (removeNoteStep id) st = (NoteMap.delete st.1 id, true) := by
  induction order with
  | nil => exact Or.inl rfl
  | cons k ks ih =>
    rw [List.foldl_cons]
    rcases removeNoteStep_cases id st k with h | h
    · rw [h]
      exact ih
    · rw [h]
      exact Or.inr (foldl_removeNoteStep_after_delete id ks st.1)

/-- When some stored note has `UID = id` and the loop reaches its key, the loop
ends with key `id` deleted and the flag set, whatever the map. -/
theorem foldl_removeNoteStep_of_match (id : UUID) (order : List UUID) (m : NoteMap)
    (k0 : UUID) (v0 : CropNote) (hget : NoteMap.get m k0 = some v0) (hv : v0.UID = id)
    (hord : k0 ∈ order) :
    order.foldl (removeNoteStep id) (m, false) = (NoteMap.delete m id, true) := by
  induction order with
  | nil => exact absurd hord (List.not_mem_nil k0)
  | cons k ks ih =>
    rw [List.foldl_cons]
    rcases removeNoteStep_cases id (m, false) k with h | h
    · rw [h]
      have hk : k0 ≠ k := by
        intro hk
        subst hk
        have h2 : removeNoteStep id (m, false) k0 = (NoteMap.delete m id, true) := by
          simp [removeNoteStep, hget, hv]
        rw [h2] at h
        have h3 := congrArg Prod.snd h
        simp at h3
      rcases List.mem_cons.mp hord with h1 | h1
      · exact absurd h1 hk
      · exact ih h1
    · rw [h]
      exact foldl_removeNoteStep_after_delete id ks m

section Outcomes

variable {ρ μ : Type}

/-- What a call of `RemoveNote` can return: the Crop as it was with an error,
or the Crop with key `id` deleted and no error. -/
theorem removeNote_cases (codec : UUIDCodec) (c : Crop ρ μ) (uid : String) (order : List UUID) :
    (RemoveNote codec c uid order).1 = c ∧ (RemoveNote codec c uid order).2 ≠ none
      ∨ ∃ id, uid ≠ "" ∧ codec.FromString uid = some id
          ∧ RemoveNote codec c uid order = ({ c with Notes := NoteMap.delete c.Notes id }, none) := by
  by_cases hs : uid = ""
  · left
    simp [RemoveNote, hs]
  · cases hp : codec.FromString uid with
    | none =>
      left
      simp [RemoveNote, hs, hp]
    | some id =>
      rcases foldl_removeNoteStep_cases id order (c.Notes, false) with h | h
      · left
        simp [RemoveNote, hs, hp, h]
      · right
        exact ⟨id, hs, rfl, by simp [RemoveNote, hs, hp, h]⟩

/-- What a call of `AddNewNote` can return: the Crop as it was with an error,
or the Crop with a note of non-empty content stored under its own `UID` and no
error. -/
theorem addNewNote_cases (c : Crop ρ μ) (s : String) (w : World) :
    (AddNewNote c s w).1 = c ∧ (AddNewNote c s w).2.1 ≠ none
      ∨ ∃ u t, s ≠ "" ∧ (AddNewNote c s w).2.1 = none
          ∧ (AddNewNote c s w).1
              = { c with Notes := some ((NoteMap.entries c.Notes).insert u
                    { UID := u, Content := s, CreatedDate := t }) } := by
  by_cases hs : s = ""
  · left
    simp [AddNewNote, hs]
  · cases hu : w.newV4 w.idCalls with
    | error err =>
      left
      simp [AddNewNote, hs, uuidNewV4, hu]
    | ok u =>
      right
      refine ⟨u, w.clock w.clockCalls, hs, ?_, ?_⟩
      · rw [addNewNote_of_ok c s w u _ hs hu rfl]
      · rw [addNewNote_of_ok c s w u _ hs hu rfl]

/-- What a call of `ChangeCropType` can return. -/
theorem changeCropType_cases (c : Crop ρ μ) (v : CropType) :
    (ChangeCropType c v).1 = c ∧ (ChangeCropType c v).2 ≠ none
      ∨ validateCropType v = none ∧ ChangeCropType c v = ({ c with Type_ := v }, none) := by
  cases hv : validateCropType v with
  | none =>
    right
    simp [ChangeCropType, hv]
  | some err =>
    left
    simp [ChangeCropType, hv]

/-- What a call of `ChangeContainer` can return. -/
theorem changeContainer_cases (c : Crop ρ μ) (k : CropContainer) :
    (ChangeContainer c k).1 = c ∧ (ChangeContainer c k).2 ≠ none
      ∨ validateCropContainer k = none
          ∧ ChangeContainer c k = ({ c with Container := k }, none) := by
  cases hv : validateCropContainer k with
  | none =>
    right
    simp [ChangeContainer, hv]
  | some err =>
    left
    simp [ChangeContainer, hv]

end Outcomes

/-! ## Frame and atomicity -/

section Frame

variable {ρ μ : Type}

/-- C12: for every Crop and every input, whether the call returns an error or
not: `ChangeCropType` leaves every field but `Type` as it was,
`ChangeContainer` every field but `Container`, `AddNewNote` and `RemoveNote`
every field but `Notes`; so after any of the four calls `UID`, `InitialArea`,
`CurrentAreas`, `BatchID`, `Inventory` and `CreatedDate` are what they were. -/
theorem mutators_frame (codec : UUIDCodec) (c : Crop ρ μ) (v : CropType) (k : CropContainer)
    (s : String) (w : World) (uid : String) (order : List UUID) :
    (ChangeCropType c v).1 = { c with Type_ := (ChangeCropType c v).1.Type_ }
      ∧ (ChangeContainer c k).1 = { c with Container := (ChangeContainer c k).1.Container }
      ∧ (AddNewNote c s w).1 = { c with Notes := (AddNewNote c s w).1.Notes }
      ∧ (RemoveNote codec c uid order).1
          = { c with Notes := (RemoveNote codec c uid order).1.Notes }
      ∧ ∀ d, (d = (ChangeCropType c v).1 ∨ d = (ChangeContainer c k).1
            ∨ d = (AddNewNote c s w).1 ∨ d = (RemoveNote codec c uid order).1) →
          d.UID = c.UID ∧ d.InitialArea = c.InitialArea ∧ d.CurrentAreas = c.CurrentAreas
            ∧ d.BatchID = c.BatchID ∧ d.Inventory = c.Inventory
            ∧ d.CreatedDate = c.CreatedDate := by
  have h1 : (ChangeCropType c v).1 = { c with Type_ := (ChangeCropType c v).1.Type_ } := by
    rcases changeCropType_cases c v with h | h
    · rw [h.1]
    · rw [h.2]
  have h2 : (ChangeContainer c k).1
      = { c with Container := (ChangeContainer c k).1.Container } := by
    rcases changeContainer_cases c k with h | h
    · rw [h.1]
    · rw [h.2]
  have h3 : (AddNewNote c s w).1 = { c with Notes := (AddNewNote c s w).1.Notes } := by
    rcases addNewNote_cases c s w with h | ⟨u, t, _, _, h⟩
    · rw [h.1]
    · rw [h]
  have h4 : (RemoveNote codec c uid order).1
      = { c with Notes := (RemoveNote codec c uid order).1.Notes } := by
    rcases removeNote_cases codec c uid order with h | ⟨id, _, _, h⟩
    · rw [h.1]
    · rw [h]
  refine ⟨h1, h2, h3, h4, ?_⟩
  intro d hd
  rcases hd with hd | hd | hd | hd
  · rw [hd, h1]
    exact ⟨rfl, rfl, rfl, rfl, rfl, rfl⟩
  · rw [hd, h2]
    exact ⟨rfl, rfl, rfl, rfl, rfl, rfl⟩
  · rw [hd, h3]
    exact ⟨rfl, rfl, rfl, rfl, rfl, rfl⟩
  · rw [hd, h4]
    exact ⟨rfl, rfl, rfl, rfl, rfl, rfl⟩

/-- C13: for every Crop and every input, whenever `ChangeCropType`,
`ChangeContainer`, `AddNewNote` (also when identifier generation fails) or
`RemoveNote` returns an error, the Crop after the call equals the Crop before
it, `Notes` included. -/
theorem mutators_atomic_on_error (codec : UUIDCodec) (c : Crop ρ μ) (v : CropType)
    (k : CropContainer) (s : String) (w : World) (uid : String) (order : List UUID) :
    ((ChangeCropType c v).2 ≠ none → (ChangeCropType c v).1 = c)
      ∧ ((ChangeContainer c k).2 ≠ none → (ChangeContainer c k).1 = c)
      ∧ ((AddNewNote c s w).2.1 ≠ none → (AddNewNote c s w).1 = c)
      ∧ ((RemoveNote codec c uid order).2 ≠ none → (RemoveNote codec c uid order).1 = c) := by
  refine ⟨?_, ?_, ?_, ?_⟩
  · intro herr
    rcases changeCropType_cases c v with h | h
    · exact h.1
    · rw [h.2] at herr
      exact absurd rfl herr
  · intro herr
    rcases changeContainer_cases c k with h | h
    · exact h.1
    · rw [h.2] at herr
      exact absurd rfl herr
  · intro herr
    rcases addNewNote_cases c s w with h | ⟨u, t, _, h, _⟩
    · exact h.1
    · exact absurd h herr
  · intro herr
    rcases removeNote_cases codec c uid order with h | ⟨id, _, _, h⟩
    · exact h.1
    · rw [h] at herr
      exact absurd rfl herr

end Frame

/-! ## Invariants of the reachable states -/

section Invariants

variable {ρ μ : Type}

theorem keysAreUIDs_delete (m : NoteMap) (id : UUID) (h : KeysAreUIDs m) :
    KeysAreUIDs (NoteMap.delete m id) := by
  intro k v hg
  by_cases hk : k = id
  · subst hk
    rw [NoteMap.get_delete_self] at hg
    exact Option.noConfusion hg
  · rw [NoteMap.get_delete_of_ne m hk] at hg
    exact h k v hg

theorem contentNonEmpty_delete (m : NoteMap) (id : UUID) (h : ContentNonEmpty m) :
    ContentNonEmpty (NoteMap.delete m id) := by
  intro k v hg
  by_cases hk : k = id
  · subst hk
    rw [NoteMap.get_delete_self] at hg
    exact Option.noConfusion hg
  · rw [NoteMap.get_delete_of_ne m hk] at hg
    exact h k v hg

theorem contentNonEmpty_insert (m : NoteMap) (k : UUID) (v : CropNote) (h : ContentNonEmpty m)
    (hv : v.Content ≠ "") : ContentNonEmpty (some ((NoteMap.entries m).insert k v)) := by
  intro x n hg
  by_cases hx : x = k
  · subst hx
    have h2 : (Finmap.lookup x ((NoteMap.entries m).insert x v)) = some n := hg
    rw [Finmap.lookup_insert] at h2
    rw [← Option.some.inj h2]
    exact hv
  · have h2 : (Finmap.lookup x ((NoteMap.entries m).insert k v)) = some n := hg
    rw [Finmap.lookup_insert_of_ne _ hx] at h2
    exact h x n h2

theorem validateCropType_eq_none (v : CropType) :
    validateCropType v = none ↔ v = CropType.Seeding ∨ v = CropType.Growing := by
  cases v <;> simp [validateCropType]

theorem validateCropContainer_eq_none (k : CropContainer) :
    validateCropContainer k = none
      ↔ (∃ cell, k.Type_ = CropContainerType.Tray cell) ∨ k.Type_ = CropContainerType.Pot := by
  obtain ⟨q, ty⟩ := k
  cases ty <;> simp [validateCropContainer]

/-- What one mutator call does to the fields the invariants speak of. -/
theorem step_effect (codec : UUIDCodec) (c d : Crop ρ μ) (h : Step codec c d) :
    d.UID = c.UID
      ∧ (d.Type_ = c.Type_ ∨ validateCropType d.Type_ = none)
      ∧ (d.Container = c.Container ∨ validateCropContainer d.Container = none)
      ∧ (d.Notes = c.Notes
          ∨ (∃ id, d.Notes = NoteMap.delete c.Notes id)
          ∨ ∃ u s t, s ≠ "" ∧ d.Notes = some ((NoteMap.entries c.Notes).insert u
                { UID := u, Content := s, CreatedDate := t })) := by
  cases h with
  | changeCropType v =>
    rcases changeCropType_cases c v with h | h
    · rw [h.1]
      exact ⟨rfl, Or.inl rfl, Or.inl rfl, Or.inl rfl⟩
    · rw [h.2]
      exact ⟨rfl, Or.inr h.1, Or.inl rfl, Or.inl rfl⟩
  | changeContainer k =>
    rcases changeContainer_cases c k with h | h
    · rw [h.1]
      exact ⟨rfl, Or.inl rfl, Or.inl rfl, Or.inl rfl⟩
    · rw [h.2]
      exact ⟨rfl, Or.inl rfl, Or.inr h.1, Or.inl rfl⟩
  | addNewNote s w =>
    rcases addNewNote_cases c s w with h | ⟨u, t, hs, _, h⟩
    · rw [h.1]
      exact ⟨rfl, Or.inl rfl, Or.inl rfl, Or.inl rfl⟩
    · rw [h]
      exact ⟨rfl, Or.inl rfl, Or.inl rfl, Or.inr (Or.inr ⟨u, s, t, hs, rfl⟩)⟩
  | removeNote uid order hord =>
    rcases removeNote_cases codec c uid order with h | ⟨id, _, _, h⟩
    · rw [h.1]
      exact ⟨rfl, Or.inl rfl, Or.inl rfl, Or.inl rfl⟩
    · rw [h]
      exact ⟨rfl, Or.inl rfl, Or.inl rfl, Or.inr (Or.inl ⟨id, rfl⟩)⟩

variable [Inhabited ρ] [Inhabited μ]

/-- What a call of `CreateCropBatch` can return. -/
theorem createCropBatch_cases (area : Area ρ) (w : World) :
    (CreateCropBatch area w : Crop ρ μ × Option GoError × World).2.1 ≠ none
      ∨ ∃ u t, w.newV4 w.idCalls = Except.ok u
          ∧ (CreateCropBatch area w : Crop ρ μ × Option GoError × World).1
              = { UID := u
                  BatchID := ""
                  InitialArea := area
                  CurrentAreas := [area]
                  Type_ := CropType.absent
                  Inventory := default
                  Container := CropContainer.zero
                  Notes := none
                  CreatedDate := t } := by
  by_cases ha : area.UID = 0
  · left
    simp [CreateCropBatch, ha]
  · cases hu : w.newV4 w.idCalls with
    | error err =>
      left
      simp [CreateCropBatch, ha, uuidNewV4, hu]
    | ok u =>
      right
      exact ⟨u, w.clock w.clockCalls, rfl, by simp [CreateCropBatch, ha, uuidNewV4, hu, timeNow]⟩

/-- A freshly created Crop has nil `Notes`, nil `Type` and nil `Container.Type`. -/
theorem created_fields (c : Crop ρ μ) (h : Created c) :
    c.Notes = none ∧ c.Type_ = CropType.absent
      ∧ c.Container.Type_ = CropContainerType.absent := by
  obtain ⟨area, w, hok, hc⟩ := h
  rcases createCropBatch_cases (μ := μ) area w with h | ⟨u, t, _, h⟩
  · exact absurd hok h
  · rw [← hc, h]
    exact ⟨rfl, rfl, rfl⟩

theorem contentNonEmpty_nil : ContentNonEmpty none := by
  intro k v h
  simp [NoteMap.get, NoteMap.entries] at h

/-- C14: in every Crop reached from a successful `CreateCropBatch` by a finite
sequence of `ChangeCropType`, `ChangeContainer`, `AddNewNote` and `RemoveNote`
calls (successful or failing, with any generated identifiers), every key of
`Notes` is the `UID` of the note stored under it. -/
theorem reachable_keysAreUIDs (codec : UUIDCodec) (c : Crop ρ μ) (h : Reachable codec c) :
    KeysAreUIDs c.Notes := by
  obtain ⟨c0, hc0, hsteps⟩ := h
  induction hsteps with
  | refl =>
    rw [(created_fields c0 hc0).1]
    exact keysAreUIDs_nil
  | tail _ hstep ih =>
    rcases (step_effect codec _ _ hstep).2.2.2 with h | ⟨id, h⟩ | ⟨u, s, t, _, h⟩
    · rw [h]
      exact ih
    · rw [h]
      exact keysAreUIDs_delete _ id ih
    · rw [h]
      exact keysAreUIDs_insert _ u _ ih rfl

/-- C15: in every Crop reached from a successful `CreateCropBatch` by a finite
sequence of `ChangeCropType`, `ChangeContainer`, `AddNewNote` and `RemoveNote`
calls, every note stored in `Notes` has non-empty `Content`. -/
theorem reachable_contentNonEmpty (codec : UUIDCodec) (c : Crop ρ μ)
    (h : Reachable codec c) : ContentNonEmpty c.Notes := by
  obtain ⟨c0, hc0, hsteps⟩ := h
  induction hsteps with
  | refl =>
    rw [(created_fields c0 hc0).1]
    exact contentNonEmpty_nil
  | tail _ hstep ih =>
    rcases (step_effect codec _ _ hstep).2.2.2 with h | ⟨id, h⟩ | ⟨u, s, t, hs, h⟩
    · rw [h]
      exact ih
    · rw [h]
      exact contentNonEmpty_delete _ id ih
    · rw [h]
      exact contentNonEmpty_insert _ u _ ih hs

end Invariants

theorem sampleStarted_reachable : Reachable sampleCodec sampleStarted :=
  ⟨sampleCreated, ⟨sampleArea, sampleWorld, rfl, rfl⟩,
    Relation.ReflTransGen.single (Step.addNewNote sampleCreated "hello" sampleWorldAfterCreate)⟩

/-- The instance of C14 at the sample crop after creation and one
`AddNewNote`. -/
theorem reachable_keysAreUIDs_witness : KeysAreUIDs sampleStarted.Notes :=
  reachable_keysAreUIDs sampleCodec sampleStarted sampleStarted_reachable

/-- The instance of C15 at the sample crop after creation and one
`AddNewNote`. -/
theorem reachable_contentNonEmpty_witness : ContentNonEmpty sampleStarted.Notes :=
  reachable_contentNonEmpty sampleCodec sampleStarted sampleStarted_reachable

section TypeInvariants

variable {ρ μ : Type}

theorem steps_keep_variants (codec : UUIDCodec) (c d : Crop ρ μ)
    (h : Relation.ReflTransGen (Step codec) c d) :
    (c.Type_ ≠ CropType.absent → d.Type_ ≠ CropType.absent)
      ∧ (c.Container.Type_ ≠ CropContainerType.absent →
          d.Container.Type_ ≠ CropContainerType.absent) := by
  induction h with
  | refl => exact ⟨id, id⟩
  | tail _ hstep ih =>
    obtain ⟨_, hty, hct, _⟩ := step_effect codec _ _ hstep
    constructor
    · intro hc
      rcases hty with h | h
      · rw [h]
        exact ih.1 hc
      · rcases (validateCropType_eq_none _).mp h with h | h <;> rw [h] <;> simp
    · intro hc
      rcases hct with h | h
      · rw [h]
        exact ih.2 hc
      · rcases (validateCropContainer_eq_none _).mp h with ⟨cell, h⟩ | h <;> rw [h] <;> simp

theorem steps_keep_uid (codec : UUIDCodec) (c d : Crop ρ μ)
    (h : Relation.ReflTransGen (Step codec) c d) : d.UID = c.UID := by
  induction h with
  | refl => rfl
  | tail _ hstep ih => rw [(step_effect codec _ _ hstep).1, ih]

variable [Inhabited ρ] [Inhabited μ]

/-- C16: in every Crop reached from a successful `CreateCropBatch` by a finite
sequence of mutator calls with arbitrary arguments, `Type` is nil, `Seeding` or
`Growing`, and `Container.Type` is nil, a `Tray` or a `Pot`; a mutator call
leaves each of the two fields as it was or stores a value that
`validateCropType`, respectively `validateCropContainer`, accepts; and once
`Type`, respectively `Container.Type`, is not nil, no sequence of mutator calls
makes it nil again. -/
theorem reachable_types_closed (codec : UUIDCodec) (c : Crop ρ μ) (h : Reachable codec c) :
    (c.Type_ = CropType.absent ∨ c.Type_ = CropType.Seeding ∨ c.Type_ = CropType.Growing)
      ∧ (c.Container.Type_ = CropContainerType.absent
          ∨ (∃ cell, c.Container.Type_ = CropContainerType.Tray cell)
          ∨ c.Container.Type_ = CropContainerType.Pot)
      ∧ (∀ d, Step codec c d →
          (d.Type_ = c.Type_ ∨ validateCropType d.Type_ = none)
            ∧ (d.Container = c.Container ∨ validateCropContainer d.Container = none))
      ∧ (∀ d, Relation.ReflTransGen (Step codec) c d →
          (c.Type_ ≠ CropType.absent → d.Type_ ≠ CropType.absent)
            ∧ (c.Container.Type_ ≠ CropContainerType.absent →
                d.Container.Type_ ≠ CropContainerType.absent)) := by
  refine ⟨?_, ?_, ?_, ?_⟩
  · obtain ⟨c0, hc0, hsteps⟩ := h
    induction hsteps with
    | refl => exact Or.inl (created_fields c0 hc0).2.1
    | tail _ hstep ih =>
      rcases (step_effect codec _ _ hstep).2.1 with h | h
      · rw [h]
        exact ih
      · exact Or.inr ((validateCropType_eq_none _).mp h)
  · obtain ⟨c0, hc0, hsteps⟩ := h
    induction hsteps with
    | refl => exact Or.inl (created_fields c0 hc0).2.2
    | tail _ hstep ih =>
      rcases (step_effect codec _ _ hstep).2.2.1 with h | h
      · rw [h]
        exact ih
      · exact Or.inr ((validateCropContainer_eq_none _).mp h)
  · intro d hstep
    exact ⟨(step_effect codec _ _ hstep).2.1, (step_effect codec _ _ hstep).2.2.1⟩
  · intro d hsteps
    exact steps_keep_variants codec c d hsteps

/-- C17, amended: in every Crop reached from a successful `CreateCropBatch` by
a finite sequence of `ChangeCropType`, `ChangeContainer`, `AddNewNote` and
`RemoveNote` calls, `UID` is the identifier that `uuid.NewV4` returned to
`CreateCropBatch`, which stores it unchecked and which no mutator changes; so
`UID` is not the zero identifier exactly when that generated identifier is
not. -/
theorem reachable_uid_is_generated (codec : UUIDCodec) (area : Area ρ) (w : World)
    (c : Crop ρ μ)
    (hok : (CreateCropBatch area w : Crop ρ μ × Option GoError × World).2.1 = none)
    (hsteps : Relation.ReflTransGen (Step codec)
      (CreateCropBatch area w : Crop ρ μ × Option GoError × World).1 c) :
    w.newV4 w.idCalls = Except.ok c.UID
      ∧ (c.UID ≠ 0 ↔ ∀ u, w.newV4 w.idCalls = Except.ok u → u ≠ 0) := by
  have hkeep := steps_keep_uid codec _ c hsteps
  rcases createCropBatch_cases (μ := μ) area w with h | ⟨u, t, hu, h⟩
  · exact absurd hok h
  · have hc : c.UID = u := by rw [hkeep, h]
    rw [hc]
    refine ⟨hu, fun hne v hv => ?_, fun hall => hall u hu⟩
    rw [hu] at hv
    rw [← Except.ok.inj hv]
    exact hne

end TypeInvariants

/-- The instance of C16 at the sample crop after creation and one
`AddNewNote`. -/
theorem reachable_types_closed_witness :
    (sampleStarted.Type_ = CropType.absent ∨ sampleStarted.Type_ = CropType.Seeding
        ∨ sampleStarted.Type_ = CropType.Growing)
      ∧ (sampleStarted.Container.Type_ = CropContainerType.absent
          ∨ (∃ cell, sampleStarted.Container.Type_ = CropContainerType.Tray cell)
          ∨ sampleStarted.Container.Type_ = CropContainerType.Pot)
      ∧ (∀ d, Step sampleCodec sampleStarted d →
          (d.Type_ = sampleStarted.Type_ ∨ validateCropType d.Type_ = none)
            ∧ (d.Container = sampleStarted.Container
                ∨ validateCropContainer d.Container = none))
      ∧ (∀ d, Relation.ReflTransGen (Step sampleCodec) sampleStarted d →
          (sampleStarted.Type_ ≠ CropType.absent → d.Type_ ≠ CropType.absent)
            ∧ (sampleStarted.Container.Type_ ≠ CropContainerType.absent →
                d.Container.Type_ ≠ CropContainerType.absent)) :=
  reachable_types_closed sampleCodec sampleStarted sampleStarted_reachable

/-- C17 fails as stated when the generator hands out the zero identifier:
`CreateCropBatch` returns no error and a Crop with the zero `UID`, and the Crop
still has it after a successful `AddNewNote`. -/
theorem reachable_uid_zero_counterexample :
    (CreateCropBatch sampleArea zeroIdWorld : Crop Unit Unit × Option GoError × World).2.1 = none
      ∧ Reachable sampleCodec
          (AddNewNote (CreateCropBatch sampleArea zeroIdWorld
            : Crop Unit Unit × Option GoError × World).1 "hello" sampleWorld).1
      ∧ (AddNewNote (CreateCropBatch sampleArea zeroIdWorld
            : Crop Unit Unit × Option GoError × World).1 "hello" sampleWorld).2.1 = none
      ∧ (AddNewNote (CreateCropBatch sampleArea zeroIdWorld
            : Crop Unit Unit × Option GoError × World).1 "hello" sampleWorld).1.UID = 0 :=
  ⟨rfl,
    ⟨_, ⟨sampleArea, zeroIdWorld, rfl, rfl⟩,
      Relation.ReflTransGen.single (Step.addNewNote _ "hello" sampleWorld)⟩,
    rfl, rfl⟩

/-- The instance of the amended C17 at the sample crop after creation and one
`AddNewNote`: the identifier generated at creation is 1, and it is the `UID`. -/
theorem reachable_uid_is_generated_witness :
    sampleWorld.newV4 sampleWorld.idCalls = Except.ok sampleStarted.UID
      ∧ (sampleStarted.UID ≠ 0
          ↔ ∀ u, sampleWorld.newV4 sampleWorld.idCalls = Except.ok u → u ≠ 0) :=
  reachable_uid_is_generated sampleCodec sampleArea sampleWorld sampleStarted rfl
    (Relation.ReflTransGen.single (Step.addNewNote sampleCreated "hello" sampleWorldAfterCreate))

/-! ## The loop of `RemoveNote` against a keyed lookup -/

section Refinement

variable {ρ μ : Type}

theorem delete_of_not_mem (m : NoteMap) (id : UUID) (h : id ∉ NoteMap.entries m) :
    NoteMap.delete m id = m := by
  cases m with
  | none => rfl
  | some e =>
    show some (e.erase id) = some e
    congr 1
    apply Finmap.ext_lookup
    intro x
    by_cases hx : x = id
    · subst hx
      rw [Finmap.lookup_erase]
      exact (Finmap.lookup_eq_none.mpr h).symm
    · rw [Finmap.lookup_erase_ne hx]

/-- The path of `RemoveNote` on which some stored note has `UID = id`, for an
arbitrary map. -/
theorem removeNote_of_match (codec : UUIDCodec) (c : Crop ρ μ) (s : String) (id : UUID)
    (order : List UUID) (hs : s ≠ "") (hparse : codec.FromString s = some id)
    (k0 : UUID) (v0 : CropNote) (hget : NoteMap.get c.Notes k0 = some v0) (hv : v0.UID = id)
    (hord : k0 ∈ order) :
    RemoveNote codec c s order = ({ c with Notes := NoteMap.delete c.Notes id }, none) := by
  simp [RemoveNote, hs, hparse,
    foldl_removeNoteStep_of_match id order c.Notes k0 v0 hget hv hord]

/-- The path of `RemoveNote` on which no stored note has `UID = id`, for an
arbitrary map. -/
theorem removeNote_of_no_match (codec : UUIDCodec) (c : Crop ρ μ) (s : String) (id : UUID)
    (order : List UUID) (hs : s ≠ "") (hparse : codec.FromString s = some id)
    (hno : ∀ k v, NoteMap.get c.Notes k = some v → v.UID ≠ id) :
    RemoveNote codec c s order
      = (c, some (GoError.CropError CropErrorCode.CropNoteErrorNotFound)) := by
  have hloop := foldl_removeNoteStep_of_no_match id order (c.Notes, false) hno
  simp [RemoveNote, hs, hparse, hloop]

/-- C18: for every Crop whose `Notes` keys each equal the `UID` of their value
and every string `s`, the loop of `RemoveNote`, in whatever order it visits the
keys, returns the same error or success and leaves the same Crop as the direct
keyed lookup `RemoveNoteKeyed`. -/
theorem removeNote_eq_keyed (codec : UUIDCodec) (c : Crop ρ μ) (s : String) (order : List UUID)
    (hinv : KeysAreUIDs c.Notes) (hord : IsRangeOrder c.Notes order) :
    RemoveNote codec c s order = RemoveNoteKeyed codec c s
      ∧ (RemoveNote codec c s order).2 = (RemoveNoteKeyed codec c s).2
      ∧ (RemoveNote codec c s order).1.Notes = (RemoveNoteKeyed codec c s).1.Notes := by
  have heq : RemoveNote codec c s order = RemoveNoteKeyed codec c s := by
    by_cases hs : s = ""
    · simp [RemoveNote, RemoveNoteKeyed, hs]
    · cases hp : codec.FromString s with
      | none => simp [RemoveNote, RemoveNoteKeyed, hs, hp]
      | some id =>
        by_cases hid : id ∈ NoteMap.entries c.Notes
        · rw [removeNote_of_mem codec c s id order hs hp hinv hid ((hord.2 id).mpr hid)]
          simp [RemoveNoteKeyed, hs, hp, hid]
        · rw [removeNote_of_not_mem codec c s id order hs hp hinv hid]
          simp [RemoveNoteKeyed, hs, hp, hid]
  exact ⟨heq, by rw [heq], by rw [heq]⟩

/-- C19: for every Crop, whatever its `Notes` map (a key may differ from the
`UID` of its value), and every non-empty string that parses to `id`:
`RemoveNote` returns no error exactly when some stored note has `UID = id`,
under whatever key; when it returns no error, `Notes` is the map it was with
key `id` erased, every other key holding what it held, so the map is unchanged
when `id` is not a key; and the returned Crop and error are the same for every
two orders in which the loop may visit the keys. -/
theorem removeNote_arbitrary_map (codec : UUIDCodec) (c : Crop ρ μ) (s : String) (id : UUID)
    (order order2 : List UUID) (hs : s ≠ "") (hparse : codec.FromString s = some id)
    (hord : IsRangeOrder c.Notes order) (hord2 : IsRangeOrder c.Notes order2) :
    ((RemoveNote codec c s order).2 = none
        ↔ ∃ k v, NoteMap.get c.Notes k = some v ∧ v.UID = id)
      ∧ ((RemoveNote codec c s order).2 = none →
          (RemoveNote codec c s order).1.Notes = NoteMap.delete c.Notes id
            ∧ NoteMap.get (RemoveNote codec c s order).1.Notes id = none
            ∧ (∀ k, k ≠ id →
                NoteMap.get (RemoveNote codec c s order).1.Notes k = NoteMap.get c.Notes k)
            ∧ (id ∉ NoteMap.entries c.Notes →
                (RemoveNote codec c s order).1.Notes = c.Notes))
      ∧ RemoveNote codec c s order = RemoveNote codec c s order2 := by
  by_cases hm : ∃ k v, NoteMap.get c.Notes k = some v ∧ v.UID = id
  · obtain ⟨k0, v0, hget, hv⟩ := hm
    have hk0 : k0 ∈ NoteMap.entries c.Notes := Finmap.mem_of_lookup_eq_some hget
    have h1 := removeNote_of_match codec c s id order hs hparse k0 v0 hget hv
      ((hord.2 k0).mpr hk0)
    have h2 := removeNote_of_match codec c s id order2 hs hparse k0 v0 hget hv
      ((hord2.2 k0).mpr hk0)
    rw [h1, h2]
    refine ⟨⟨fun _ => ⟨k0, v0, hget, hv⟩, fun _ => rfl⟩, ?_, rfl⟩
    intro _
    refine ⟨rfl, NoteMap.get_delete_self c.Notes id, ?_, ?_⟩
    · intro k hk
      exact NoteMap.get_delete_of_ne c.Notes hk
    · intro hid
      exact delete_of_not_mem c.Notes id hid
  · have hno : ∀ k v, NoteMap.get c.Notes k = some v → v.UID ≠ id :=
      fun k v hg hv => hm ⟨k, v, hg, hv⟩
    have h1 := removeNote_of_no_match codec c s id order hs hparse hno
    have h2 := removeNote_of_no_match codec c s id order2 hs hparse hno
    rw [h1, h2]
    refine ⟨⟨fun h => ?_, fun h => absurd h hm⟩, fun h => ?_, rfl⟩
    · exact absurd h (by simp)
    · exact absurd h (by simp)

end Refinement

theorem sampleMiskeyedCrop_rangeOrder : IsRangeOrder sampleMiskeyedCrop.Notes [5, 1] := by
  refine ⟨by decide, ?_⟩
  intro k
  simp only [sampleMiskeyedCrop, NoteMap.entries, Finmap.mem_insert, List.mem_cons,
    List.mem_singleton, List.not_mem_nil, or_false]
  constructor
  · rintro (h | h)
    · exact Or.inr (Or.inl h)
    · exact Or.inl h
  · rintro (h | h | h)
    · exact Or.inr h
    · exact Or.inl h
    · exact absurd h Finmap.not_mem_empty

theorem sampleMiskeyedCrop_rangeOrder_rev : IsRangeOrder sampleMiskeyedCrop.Notes [1, 5] := by
  refine ⟨by decide, ?_⟩
  intro k
  simp only [sampleMiskeyedCrop, NoteMap.entries, Finmap.mem_insert, List.mem_cons,
    List.mem_singleton, List.not_mem_nil, or_false]
  constructor
  · rintro (h | h)
    · exact Or.inl h
    · exact Or.inr (Or.inl h)
  · rintro (h | h | h)
    · exact Or.inl h
    · exact Or.inr h
    · exact absurd h Finmap.not_mem_empty

/-- The instance of C18 at the sample crop holding one note, for the string
"note-1". -/
theorem removeNote_eq_keyed_witness :
    RemoveNote sampleCodec sampleNotedCrop "note-1" [1]
        = RemoveNoteKeyed sampleCodec sampleNotedCrop "note-1"
      ∧ (RemoveNote sampleCodec sampleNotedCrop "note-1" [1]).2
          = (RemoveNoteKeyed sampleCodec sampleNotedCrop "note-1").2
      ∧ (RemoveNote sampleCodec sampleNotedCrop "note-1" [1]).1.Notes
          = (RemoveNoteKeyed sampleCodec sampleNotedCrop "note-1").1.Notes :=
  removeNote_eq_keyed sampleCodec sampleNotedCrop "note-1" [1] sampleNotedCrop_keysAreUIDs
    sampleNotedCrop_rangeOrder

/-- The instance of C19 at a Crop that holds a note of `UID` 1 under key 5 and
a note of `UID` 2 under key 1, for the string "note-1" and the two orders in
which the loop can visit the keys: the call finds the note under key 5 and
erases key 1. -/
theorem removeNote_arbitrary_map_witness :
    ((RemoveNote sampleCodec sampleMiskeyedCrop "note-1" [5, 1]).2 = none
        ↔ ∃ k v, NoteMap.get sampleMiskeyedCrop.Notes k = some v ∧ v.UID = 1)
      ∧ ((RemoveNote sampleCodec sampleMiskeyedCrop "note-1" [5, 1]).2 = none →
          (RemoveNote sampleCodec sampleMiskeyedCrop "note-1" [5, 1]).1.Notes
              = NoteMap.delete sampleMiskeyedCrop.Notes 1
            ∧ NoteMap.get (RemoveNote sampleCodec sampleMiskeyedCrop "note-1" [5, 1]).1.Notes 1
                = none
            ∧ (∀ k, k ≠ 1 →
                NoteMap.get (RemoveNote sampleCodec sampleMiskeyedCrop "note-1" [5, 1]).1.Notes k
                  = NoteMap.get sampleMiskeyedCrop.Notes k)
            ∧ ((1 : UUID) ∉ NoteMap.entries sampleMiskeyedCrop.Notes →
                (RemoveNote sampleCodec sampleMiskeyedCrop "note-1" [5, 1]).1.Notes
                  = sampleMiskeyedCrop.Notes))
      ∧ RemoveNote sampleCodec sampleMiskeyedCrop "note-1" [5, 1]
          = RemoveNote sampleCodec sampleMiskeyedCrop "note-1" [1, 5] :=
  removeNote_arbitrary_map sampleCodec sampleMiskeyedCrop "note-1" 1 [5, 1] [1, 5] (by decide)
    (by decide) sampleMiskeyedCrop_rangeOrder sampleMiskeyedCrop_rangeOrder_rev

/-! ## Rounding to binary64 -/

theorem roundHalfEven_le_add_half (q : ℚ) : (roundHalfEven q : ℚ) ≤ q + 1 / 2 := by
  have h1 := Int.floor_le q
  unfold roundHalfEven
  split_ifs with ha hb hc
  · linarith
  · push_cast
    linarith
  · linarith
  · push_cast
    linarith

theorem sub_half_le_roundHalfEven (q : ℚ) : q - 1 / 2 ≤ (roundHalfEven q : ℚ) := by
  have h1 := Int.floor_le q
  have h2 := Int.lt_floor_add_one q
  unfold roundHalfEven
  split_ifs with ha hb hc
  · linarith
  · push_cast
    linarith
  · linarith
  · push_cast
    linarith

theorem roundHalfEven_le_of_le (q : ℚ) (a : ℤ) (h : q ≤ a) : roundHalfEven q ≤ a := by
  have h1 := roundHalfEven_le_add_half q
  have h2 : (roundHalfEven q : ℚ) < (a : ℚ) + 1 := by linarith
  have h3 : roundHalfEven q < a + 1 := by exact_mod_cast h2
  omega

theorem le_roundHalfEven_of_le (q : ℚ) (a : ℤ) (h : (a : ℚ) ≤ q) : a ≤ roundHalfEven q := by
  have h1 := sub_half_le_roundHalfEven q
  have h2 : (a : ℚ) - 1 < (roundHalfEven q : ℚ) := by linarith
  have h3 : a - 1 < roundHalfEven q := by exact_mod_cast h2
  omega

theorem roundHalfEven_lt_of_lt (q : ℚ) (a : ℤ) (h : q < a - 1 / 2) : roundHalfEven q < a := by
  have h1 := roundHalfEven_le_add_half q
  have h2 : (roundHalfEven q : ℚ) < (a : ℚ) := by linarith
  exact_mod_cast h2

theorem le_roundHalfEven_of_lt (q : ℚ) (a : ℤ) (h : (a : ℚ) - 1 / 2 < q) :
    a ≤ roundHalfEven q := by
  have h1 := sub_half_le_roundHalfEven q
  have h2 : (a : ℚ) - 1 < (roundHalfEven q : ℚ) := by linarith
  have h3 : a - 1 < roundHalfEven q := by exact_mod_cast h2
  omega

theorem ulpF64_pos (q : ℚ) : 0 < ulpF64 q := by
  unfold ulpF64
  positivity

/-- Below `2 ^ E` the spacing of the binary64 values divides `2 ^ (E - 53)`. -/
theorem ulpF64_dvd (x : ℚ) (E : ℤ) (hx : 0 < x) (hE : -1021 ≤ E) (hxE : x < 2 ^ E) :
    ∃ n : ℕ, (2 : ℚ) ^ (E - 53) = (2 ^ n : ℤ) * ulpF64 x := by
  have hlog : Int.log 2 x < E := (Int.lt_zpow_iff_log_lt (by norm_num) hx).mp (by exact_mod_cast hxE)
  have hmax : max (Int.log 2 x) (-1022) ≤ E - 1 := max_le (by omega) (by omega)
  refine ⟨(E - 1 - max (Int.log 2 x) (-1022)).toNat, ?_⟩
  unfold ulpF64
  have hn : ((E - 1 - max (Int.log 2 x) (-1022)).toNat : ℤ) = E - 1 - max (Int.log 2 x) (-1022) :=
    Int.toNat_of_nonneg (by omega)
  push_cast
  rw [← zpow_natCast, hn, ← zpow_add₀ (by norm_num : (2 : ℚ) ≠ 0)]
  congr 1
  ring


theorem roundF64Pos_le_grid (x : ℚ) (E k : ℤ) (hx : 0 < x) (hE : -1021 ≤ E) (hxE : x < 2 ^ E)
    (h : x ≤ k * 2 ^ (E - 53)) : roundF64Pos x ≤ k * 2 ^ (E - 53) := by
  obtain ⟨n, hn⟩ := ulpF64_dvd x E hx hE hxE
  have hu := ulpF64_pos x
  rw [hn] at h ⊢
  have h1 : x / ulpF64 x ≤ ((k * 2 ^ n : ℤ) : ℚ) := by
    rw [div_le_iff₀ hu]
    push_cast at h ⊢
    linarith
  have h3 : (roundHalfEven (x / ulpF64 x) : ℚ) ≤ ((k * 2 ^ n : ℤ) : ℚ) := by
    exact_mod_cast roundHalfEven_le_of_le _ _ h1
  calc roundF64Pos x = (roundHalfEven (x / ulpF64 x) : ℚ) * ulpF64 x := rfl
    _ ≤ ((k * 2 ^ n : ℤ) : ℚ) * ulpF64 x := mul_le_mul_of_nonneg_right h3 hu.le
    _ = k * (((2 ^ n : ℤ) : ℚ) * ulpF64 x) := by push_cast; ring

theorem grid_le_roundF64Pos (x : ℚ) (E k : ℤ) (hx : 0 < x) (hE : -1021 ≤ E) (hxE : x < 2 ^ E)
    (h : k * 2 ^ (E - 53) ≤ x) : k * 2 ^ (E - 53) ≤ roundF64Pos x := by
  obtain ⟨n, hn⟩ := ulpF64_dvd x E hx hE hxE
  have hu := ulpF64_pos x
  rw [hn] at h ⊢
  have h1 : ((k * 2 ^ n : ℤ) : ℚ) ≤ x / ulpF64 x := by
    rw [le_div_iff₀ hu]
    push_cast at h ⊢
    linarith
  have h3 : ((k * 2 ^ n : ℤ) : ℚ) ≤ (roundHalfEven (x / ulpF64 x) : ℚ) := by
    exact_mod_cast le_roundHalfEven_of_le _ _ h1
  calc (k : ℚ) * (((2 ^ n : ℤ) : ℚ) * ulpF64 x) = ((k * 2 ^ n : ℤ) : ℚ) * ulpF64 x := by
        push_cast; ring
    _ ≤ (roundHalfEven (x / ulpF64 x) : ℚ) * ulpF64 x := mul_le_mul_of_nonneg_right h3 hu.le
    _ = roundF64Pos x := rfl

theorem roundF64Pos_lt_grid (x : ℚ) (E k : ℤ) (hx : 0 < x) (hE : -1021 ≤ E) (hxE : x < 2 ^ E)
    (h : x < k * 2 ^ (E - 53) - 2 ^ (E - 53) / 2) : roundF64Pos x < k * 2 ^ (E - 53) := by
  obtain ⟨n, hn⟩ := ulpF64_dvd x E hx hE hxE
  have hu := ulpF64_pos x
  rw [hn] at h ⊢
  have hpow : (1 : ℚ) ≤ ((2 ^ n : ℤ) : ℚ) := by
    push_cast
    exact one_le_pow₀ (by norm_num)
  have h1 : x / ulpF64 x < ((k * 2 ^ n : ℤ) : ℚ) - 1 / 2 := by
    rw [div_lt_iff₀ hu]
    push_cast at h hpow ⊢
    nlinarith
  have h3 : (roundHalfEven (x / ulpF64 x) : ℚ) < ((k * 2 ^ n : ℤ) : ℚ) := by
    exact_mod_cast roundHalfEven_lt_of_lt _ _ h1
  calc roundF64Pos x = (roundHalfEven (x / ulpF64 x) : ℚ) * ulpF64 x := rfl
    _ < ((k * 2 ^ n : ℤ) : ℚ) * ulpF64 x := mul_lt_mul_of_pos_right h3 hu
    _ = k * (((2 ^ n : ℤ) : ℚ) * ulpF64 x) := by push_cast; ring

theorem ulpF64_eq (x : ℚ) (E : ℤ) (hE : -1021 ≤ E) (hlo : 2 ^ (E - 1) ≤ x) (hxE : x < 2 ^ E) :
    ulpF64 x = 2 ^ (E - 53) := by
  have hx : 0 < x := lt_of_lt_of_le (by positivity) hlo
  have h1 : Int.log 2 x < E :=
    (Int.lt_zpow_iff_log_lt (by norm_num) hx).mp (by exact_mod_cast hxE)
  have h2 : E - 1 ≤ Int.log 2 x :=
    (Int.zpow_le_iff_le_log (by norm_num) hx).mp (by exact_mod_cast hlo)
  have h3 : Int.log 2 x = E - 1 := by omega
  unfold ulpF64
  rw [h3, max_eq_left (by omega)]
  congr 1
  ring

theorem grid_le_roundF64Pos_of_near (x : ℚ) (E k : ℤ) (hE : -1021 ≤ E)
    (hlo : 2 ^ (E - 1) ≤ x) (hxE : x < 2 ^ E)
    (h : k * 2 ^ (E - 53) - 2 ^ (E - 53) / 2 < x) : k * 2 ^ (E - 53) ≤ roundF64Pos x := by
  have hu := ulpF64_pos x
  have hue := ulpF64_eq x E hE hlo hxE
  rw [← hue] at h ⊢
  have h1 : (k : ℚ) - 1 / 2 < x / ulpF64 x := by
    rw [lt_div_iff₀ hu]
    linarith
  have h3 : (k : ℚ) ≤ (roundHalfEven (x / ulpF64 x) : ℚ) := by
    exact_mod_cast le_roundHalfEven_of_lt _ _ h1
  exact mul_le_mul_of_nonneg_right h3 hu.le

theorem roundF64_neg (x : ℚ) : roundF64 (-x) = -roundF64 x := by
  unfold roundF64
  rcases lt_trichotomy x 0 with h | h | h
  · have h1 : 0 < -x := by linarith
    have h2 : ¬ 0 < x := by linarith
    simp [h, h1, h2]
  · subst h
    simp
  · have h1 : ¬ 0 < -x := by linarith
    have h2 : -x < 0 := by linarith
    have h3 : ¬ x < 0 := by linarith
    simp [h, h1, h2]

theorem roundF64_le_grid (x : ℚ) (E k : ℤ) (hx : 0 ≤ x) (hE : -1021 ≤ E) (hxE : x < 2 ^ E)
    (h : x ≤ k * 2 ^ (E - 53)) : roundF64 x ≤ k * 2 ^ (E - 53) := by
  rcases hx.eq_or_lt with h0 | h0
  · subst h0
    simpa [roundF64] using h
  · simp only [roundF64, h0, if_true]
    exact roundF64Pos_le_grid x E k h0 hE hxE h

theorem grid_le_roundF64 (x : ℚ) (E k : ℤ) (hx : 0 ≤ x) (hE : -1021 ≤ E) (hxE : x < 2 ^ E)
    (h : k * 2 ^ (E - 53) ≤ x) : k * 2 ^ (E - 53) ≤ roundF64 x := by
  rcases hx.eq_or_lt with h0 | h0
  · subst h0
    simpa [roundF64] using h
  · simp only [roundF64, h0, if_true]
    exact grid_le_roundF64Pos x E k h0 hE hxE h

theorem roundF64_lt_grid (x : ℚ) (E k : ℤ) (hx : 0 ≤ x) (hE : -1021 ≤ E) (hxE : x < 2 ^ E)
    (h : x < k * 2 ^ (E - 53) - 2 ^ (E - 53) / 2) : roundF64 x < k * 2 ^ (E - 53) := by
  rcases hx.eq_or_lt with h0 | h0
  · subst h0
    have hp : (0 : ℚ) < 2 ^ (E - 53) / 2 := by positivity
    simp only [roundF64, lt_irrefl, if_false]
    linarith
  · simp only [roundF64, h0, if_true]
    exact roundF64Pos_lt_grid x E k h0 hE hxE h

/-- An integer below `2 ^ 53` is a binary64 value. -/
theorem roundF64_intCast (n : ℤ) (h0 : 0 ≤ n) (h : n < 2 ^ 53) : roundF64 (n : ℚ) = n := by
  have hx : (0 : ℚ) ≤ n := by exact_mod_cast h0
  have hlt : (n : ℚ) < 2 ^ (53 : ℤ) := by
    have h2 : ((2 : ℚ) ^ (53 : ℤ)) = ((2 ^ 53 : ℤ) : ℚ) := by norm_num
    rw [h2]
    exact_mod_cast h
  have hg : (n : ℚ) = n * 2 ^ ((53 : ℤ) - 53) := by simp
  apply le_antisymm
  · have := roundF64_le_grid n 53 n hx (by norm_num) hlt (le_of_eq hg)
    rwa [← hg] at this
  · have := grid_le_roundF64 n 53 n hx (by norm_num) hlt (le_of_eq hg.symm)
    rwa [← hg] at this


theorem neg_tmod (a b : Int) : Int.tmod (-a) b = -Int.tmod a b := by
  rw [Int.tmod_def, Int.tmod_def, Int.neg_tdiv]
  ring

theorem hours_neg (d : ℤ) : Duration.Hours (-d) = -Duration.Hours d := by
  unfold Duration.Hours
  rw [Int.neg_tdiv, neg_tmod]
  push_cast
  rw [roundF64_neg, roundF64_neg, neg_div, roundF64_neg, ← neg_add, roundF64_neg]

theorem truncToInt_neg (x : ℚ) : truncToInt (-x) = -truncToInt x := by
  unfold truncToInt
  rcases lt_trichotomy x 0 with h | h | h
  · have h1 : 0 ≤ -x := by linarith
    have h2 : ¬ 0 ≤ x := by linarith
    rw [if_pos h1, if_neg h2, Int.floor_neg]
  · subst h
    simp
  · have h1 : ¬ 0 ≤ -x := by linarith
    rw [if_neg h1, if_pos h.le, Int.ceil_neg]

/-- For a non-negative duration the two conversions to float64 are exact. -/
theorem hours_of_nonneg (d : ℤ) (h0 : 0 ≤ d) (hd : d ≤ 2 ^ 63) :
    Duration.Hours d
      = roundF64 (((d / Hour : ℤ) : ℚ) + roundF64 (((d % Hour : ℤ) : ℚ) / 3600000000000)) := by
  have hH : (0 : ℤ) < Hour := by decide
  have hHv : Hour = 3600000000000 := rfl
  have h1 : Int.tdiv d Hour = d / Hour := Int.tdiv_eq_ediv h0 hH.le
  have h2 : Int.tmod d Hour = d % Hour := Int.tmod_eq_emod h0 hH.le
  have h3 : 0 ≤ d / Hour := Int.ediv_nonneg h0 hH.le
  have h4 : d / Hour < 2 ^ 53 := by
    have : d / Hour ≤ d := Int.ediv_le_self _ h0
    have h5 : d / Hour < 2 ^ 22 := by
      apply Int.ediv_lt_of_lt_mul hH
      omega
    omega
  have h5 : 0 ≤ d % Hour := Int.emod_nonneg d (by decide)
  have h6 : d % Hour < 2 ^ 53 := by
    have : d % Hour < Hour := Int.emod_lt_of_pos d hH
    omega
  unfold Duration.Hours
  rw [h1, h2, roundF64_intCast _ h3 h4, roundF64_intCast _ h5 h6]


/-- The float64 quotient of the sub-hour remainder and 3.6e12 lies between 0
and the binary64 value `1 - 2 ^ (-42) - 2 ^ (-53)`. -/
theorem frac_bounds (n : ℤ) (h0 : 0 ≤ n) (h1 : n < Hour) :
    0 ≤ roundF64 ((n : ℚ) / 3600000000000)
      ∧ roundF64 ((n : ℚ) / 3600000000000) ≤ 1 - 2 ^ (-42 : ℤ) - 2 ^ (-53 : ℤ) := by
  have hHv : Hour = 3600000000000 := rfl
  have hn0 : (0 : ℚ) ≤ n := by exact_mod_cast h0
  have hn1 : (n : ℚ) ≤ 3599999999999 := by
    have : n ≤ 3599999999999 := by omega
    exact_mod_cast this
  have hx0 : (0 : ℚ) ≤ (n : ℚ) / 3600000000000 := by positivity
  have hx1 : (n : ℚ) / 3600000000000 < 2 ^ (0 : ℤ) := by
    rw [div_lt_iff₀ (by norm_num)]
    norm_num
    linarith
  constructor
  · have := grid_le_roundF64 _ 0 0 hx0 (by norm_num) hx1 (by simpa using hx0)
    simpa using this
  · have hk : ((2 ^ 53 - 2 ^ 11 - 1 : ℤ) : ℚ) * 2 ^ ((0 : ℤ) - 53)
        = 1 - 2 ^ (-42 : ℤ) - 2 ^ (-53 : ℤ) := by norm_num
    rw [← hk]
    apply roundF64_le_grid _ 0 _ hx0 (by norm_num) hx1
    rw [div_le_iff₀ (by norm_num)]
    norm_num
    linarith

theorem frac_le_of_le (n : ℤ) (h0 : 0 ≤ n) (h1 : 8 * n ≤ 7 * Hour) :
    roundF64 ((n : ℚ) / 3600000000000) ≤ 7 / 8 := by
  have hHv : Hour = 3600000000000 := rfl
  have hn0 : (0 : ℚ) ≤ n := by exact_mod_cast h0
  have hn1 : (n : ℚ) ≤ 3150000000000 := by
    have : n ≤ 3150000000000 := by omega
    exact_mod_cast this
  have hx0 : (0 : ℚ) ≤ (n : ℚ) / 3600000000000 := by positivity
  have hx1 : (n : ℚ) / 3600000000000 < 2 ^ (0 : ℤ) := by
    rw [div_lt_iff₀ (by norm_num)]
    norm_num
    linarith
  have hk : ((7 * 2 ^ 50 : ℤ) : ℚ) * 2 ^ ((0 : ℤ) - 53) = 7 / 8 := by norm_num
  rw [← hk]
  apply roundF64_le_grid _ 0 _ hx0 (by norm_num) hx1
  rw [div_le_iff₀ (by norm_num)]
  norm_num
  linarith


theorem le_roundF64_add (h : ℤ) (f : ℚ) (h0 : 0 ≤ h) (h1 : h < 2 ^ 22) (f0 : 0 ≤ f)
    (f1 : f ≤ 1) : (h : ℚ) ≤ roundF64 ((h : ℚ) + f) := by
  have hq0 : (0 : ℚ) ≤ h := by exact_mod_cast h0
  have hq1 : (h : ℚ) < 2 ^ 22 := by exact_mod_cast h1
  have hx : (h : ℚ) + f < 2 ^ (53 : ℤ) := by
    norm_num
    norm_num at hq1
    linarith
  have := grid_le_roundF64 ((h : ℚ) + f) 53 h (by linarith) (by norm_num) hx
    (by simp; linarith)
  simpa using this

theorem roundF64_add_lt_of_small (h : ℤ) (f : ℚ) (h0 : 0 ≤ h) (h1 : h < 4096) (f0 : 0 ≤ f)
    (f1 : f ≤ 1 - 2 ^ (-42 : ℤ) - 2 ^ (-53 : ℤ)) : roundF64 ((h : ℚ) + f) < (h : ℚ) + 1 := by
  have hq0 : (0 : ℚ) ≤ h := by exact_mod_cast h0
  have hq1 : (h : ℚ) ≤ 4095 := by
    have : h ≤ 4095 := by omega
    exact_mod_cast this
  have hx : (h : ℚ) + f < 2 ^ (12 : ℤ) := by
    norm_num
    norm_num at f1
    linarith
  have hk : (((h + 1) * 2 ^ 41 : ℤ) : ℚ) * 2 ^ ((12 : ℤ) - 53) = (h : ℚ) + 1 := by
    push_cast
    norm_num
    ring
  rw [← hk]
  apply roundF64_lt_grid _ 12 _ (by linarith) (by norm_num) hx
  rw [hk]
  norm_num
  norm_num at f1
  linarith

theorem roundF64_add_le_of_frac (h : ℤ) (f : ℚ) (h0 : 0 ≤ h) (h1 : h < 2 ^ 22) (f0 : 0 ≤ f)
    (f1 : f ≤ 7 / 8) : roundF64 ((h : ℚ) + f) ≤ (h : ℚ) + 7 / 8 := by
  have hq0 : (0 : ℚ) ≤ h := by exact_mod_cast h0
  have hq1 : (h : ℚ) < 2 ^ 22 := by exact_mod_cast h1
  have hx : (h : ℚ) + f < 2 ^ (23 : ℤ) := by
    norm_num
    norm_num at hq1
    linarith
  have hk : (((8 * h + 7) * 2 ^ 27 : ℤ) : ℚ) * 2 ^ ((23 : ℤ) - 53) = (h : ℚ) + 7 / 8 := by
    push_cast
    norm_num
    ring
  rw [← hk]
  apply roundF64_le_grid _ 23 _ (by linarith) (by norm_num) hx
  rw [hk]
  linarith

/-- The conversion `int(d.Hours())` gives the whole hours of a non-negative
duration `d` when `d` is shorter than 4096 hours, or when its sub-hour
remainder is at most 7/8 of an hour. -/
theorem truncToInt_hours (d : ℤ) (h0 : 0 ≤ d) (hd : d ≤ 2 ^ 63)
    (h : d / Hour < 4096 ∨ 8 * (d % Hour) ≤ 7 * Hour) :
    truncToInt (Duration.Hours d) = d / Hour := by
  have hH : (0 : ℤ) < Hour := by decide
  have hHv : Hour = 3600000000000 := rfl
  have hh0 : 0 ≤ d / Hour := Int.ediv_nonneg h0 hH.le
  have hh1 : d / Hour < 2 ^ 22 := by
    apply Int.ediv_lt_of_lt_mul hH
    omega
  have hn0 : 0 ≤ d % Hour := Int.emod_nonneg d (by decide)
  have hn1 : d % Hour < Hour := Int.emod_lt_of_pos d hH
  obtain ⟨hf0, hf1⟩ := frac_bounds (d % Hour) hn0 hn1
  have hf2 : roundF64 (((d % Hour : ℤ) : ℚ) / 3600000000000) ≤ 1 := by
    norm_num at hf1
    linarith
  rw [hours_of_nonneg d h0 hd]
  have hlo := le_roundF64_add (d / Hour) _ hh0 hh1 hf0 hf2
  have hhi : roundF64 (((d / Hour : ℤ) : ℚ)
      + roundF64 (((d % Hour : ℤ) : ℚ) / 3600000000000)) < ((d / Hour : ℤ) : ℚ) + 1 := by
    rcases h with h | h
    · exact roundF64_add_lt_of_small (d / Hour) _ hh0 h hf0 hf1
    · have := roundF64_add_le_of_frac (d / Hour) _ hh0 hh1 hf0
        (frac_le_of_le (d % Hour) hn0 h)
      linarith
  have hnn : (0 : ℚ) ≤ roundF64 (((d / Hour : ℤ) : ℚ)
      + roundF64 (((d % Hour : ℤ) : ℚ) / 3600000000000)) := by
    have : (0 : ℚ) ≤ ((d / Hour : ℤ) : ℚ) := by exact_mod_cast hh0
    linarith
  unfold truncToInt
  rw [if_pos hnn]
  exact Int.floor_eq_iff.mpr ⟨hlo, hhi⟩


theorem roundF64_of_pos (x : ℚ) (h : 0 < x) : roundF64 x = roundF64Pos x := by
  unfold roundF64
  rw [if_pos h]

/-- One nanosecond short of 171 days, `Hours` returns the float64 4104 exactly:
the quotient of the 3599999999999 ns remainder and 3.6e12 is within `2 ^ (-41)`
of 1, and the sum with 4103 then rounds up. -/
theorem hours_171_days_less_1ns : Duration.Hours 14774399999999999 = 4104 := by
  have hHv : Hour = 3600000000000 := rfl
  have hdiv : (14774399999999999 : ℤ) / Hour = 4103 := by decide
  have hmod : (14774399999999999 : ℤ) % Hour = 3599999999999 := by decide
  rw [hours_of_nonneg _ (by decide) (by decide), hdiv, hmod]
  obtain ⟨_, hf1⟩ := frac_bounds 3599999999999 (by decide) (by decide)
  have hx0 : (0 : ℚ) ≤ ((3599999999999 : ℤ) : ℚ) / 3600000000000 := by positivity
  have hx1 : ((3599999999999 : ℤ) : ℚ) / 3600000000000 < 2 ^ (0 : ℤ) := by norm_num
  have hf0 : ((2 ^ 53 - 2 ^ 12 + 1 : ℤ) : ℚ) * 2 ^ ((0 : ℤ) - 53)
      ≤ roundF64 (((3599999999999 : ℤ) : ℚ) / 3600000000000) :=
    grid_le_roundF64 _ 0 _ hx0 (by norm_num) hx1 (by norm_num)
  norm_num at hf0 hf1
  have hk : (((4104 * 2 ^ 40 : ℤ) : ℚ)) * 2 ^ ((13 : ℤ) - 53) = 4104 := by norm_num
  have hpos : (0 : ℚ) < ((4103 : ℤ) : ℚ) + roundF64 (((3599999999999 : ℤ) : ℚ) / 3600000000000) := by
    norm_num
    linarith
  have hlt : ((4103 : ℤ) : ℚ) + roundF64 (((3599999999999 : ℤ) : ℚ) / 3600000000000)
      < 2 ^ (13 : ℤ) := by
    norm_num
    linarith
  have hge : (2 : ℚ) ^ ((13 : ℤ) - 1)
      ≤ ((4103 : ℤ) : ℚ) + roundF64 (((3599999999999 : ℤ) : ℚ) / 3600000000000) := by
    norm_num
    linarith
  apply le_antisymm
  · rw [← hk]
    apply roundF64_le_grid _ 13 _ hpos.le (by norm_num) hlt
    rw [hk]
    norm_num
    linarith
  · have hrw := roundF64_of_pos _ hpos
    rw [hrw, ← hk]
    apply grid_le_roundF64Pos_of_near _ 13 _ (by norm_num) hge hlt
    rw [hk]
    norm_num
    linarith

theorem truncToInt_intCast (n : ℤ) : truncToInt (n : ℚ) = n := by
  unfold truncToInt
  split_ifs <;> simp

/-- The days computed from the two durations at which `Sub` saturates. -/
theorem days_at_saturation :
    Int.tdiv (truncToInt (Duration.Hours maxDuration)) 24 = 106751
      ∧ Int.tdiv (truncToInt (Duration.Hours minDuration)) 24 = -106751 := by
  have hHv : Hour = 3600000000000 := rfl
  constructor
  · rw [truncToInt_hours maxDuration (by decide) (by decide) (Or.inr (by decide))]
    decide
  · have h : minDuration = -(2 ^ 63 : ℤ) := rfl
    rw [h, hours_neg, truncToInt_neg, Int.neg_tdiv,
      truncToInt_hours (2 ^ 63) (by decide) (by decide) (Or.inr (by decide))]
    decide

/-- Swapping the two times negates the days. -/
theorem days_sub_swap (t u t2 u2 : ℤ) (h : t2 - u2 = -(t - u)) :
    Int.tdiv (truncToInt (Duration.Hours (Time.Sub t2 u2))) 24
      = -Int.tdiv (truncToInt (Duration.Hours (Time.Sub t u))) 24 := by
  have hmin : minDuration = -(2 ^ 63 : ℤ) := rfl
  have hmax : maxDuration = 2 ^ 63 - 1 := rfl
  obtain ⟨hsmax, hsmin⟩ := days_at_saturation
  unfold Time.Sub
  rw [h]
  by_cases h1 : t - u < minDuration
  · have h2 : ¬ (-(t - u) < minDuration) := by omega
    have h3 : maxDuration < -(t - u) := by omega
    rw [if_pos h1, if_neg h2, if_pos h3, hsmax, hsmin]
    rfl
  · by_cases h2 : maxDuration < t - u
    · rw [if_neg h1, if_pos h2]
      by_cases h3 : -(t - u) < minDuration
      · rw [if_pos h3, hsmax, hsmin]
      · have h4 : ¬ (maxDuration < -(t - u)) := by omega
        have h5 : -(t - u) = minDuration := by omega
        rw [if_neg h3, if_neg h4, h5, hsmax, hsmin]
    · rw [if_neg h1, if_neg h2]
      by_cases h3 : -(t - u) < minDuration
      · omega
      · rw [if_neg h3]
        by_cases h4 : maxDuration < -(t - u)
        · have h5 : t - u = minDuration := by omega
          rw [if_pos h4, h5, hsmax, hsmin]
          rfl
        · rw [if_neg h4, hours_neg, truncToInt_neg, Int.neg_tdiv]

/-- At least a microsecond short of a whole hour, the float64 quotient of the
sub-hour remainder and 3.6e12 is at most the binary64 value
`1 - 2 ^ (-32) - 2 ^ (-53)`. -/
theorem frac_le_of_margin (n : ℤ) (h0 : 0 ≤ n) (h1 : n + 1000 ≤ Hour) :
    roundF64 ((n : ℚ) / 3600000000000) ≤ 1 - 2 ^ (-32 : ℤ) - 2 ^ (-53 : ℤ) := by
  have hHv : Hour = 3600000000000 := rfl
  have hn0 : (0 : ℚ) ≤ n := by exact_mod_cast h0
  have hn1 : (n : ℚ) ≤ 3599999999000 := by
    have : n ≤ 3599999999000 := by omega
    exact_mod_cast this
  have hx0 : (0 : ℚ) ≤ (n : ℚ) / 3600000000000 := by positivity
  have hx1 : (n : ℚ) / 3600000000000 < 2 ^ (0 : ℤ) := by
    rw [div_lt_iff₀ (by norm_num)]
    norm_num
    linarith
  have hk : ((2 ^ 53 - 2 ^ 21 - 1 : ℤ) : ℚ) * 2 ^ ((0 : ℤ) - 53)
      = 1 - 2 ^ (-32 : ℤ) - 2 ^ (-53 : ℤ) := by norm_num
  rw [← hk]
  apply roundF64_le_grid _ 0 _ hx0 (by norm_num) hx1
  rw [div_le_iff₀ (by norm_num)]
  norm_num
  linarith

theorem roundF64_add_lt_of_margin (h : ℤ) (f : ℚ) (h0 : 0 ≤ h) (h1 : h < 2 ^ 22) (f0 : 0 ≤ f)
    (f1 : f ≤ 1 - 2 ^ (-32 : ℤ) - 2 ^ (-53 : ℤ)) : roundF64 ((h : ℚ) + f) < (h : ℚ) + 1 := by
  have hq0 : (0 : ℚ) ≤ h := by exact_mod_cast h0
  have hq1 : (h : ℚ) ≤ 4194303 := by
    have : h ≤ 4194303 := by omega
    exact_mod_cast this
  have hx : (h : ℚ) + f < 2 ^ (22 : ℤ) := by
    norm_num
    norm_num at f1
    linarith
  have hk : (((h + 1) * 2 ^ 31 : ℤ) : ℚ) * 2 ^ ((22 : ℤ) - 53) = (h : ℚ) + 1 := by
    push_cast
    norm_num
    ring
  rw [← hk]
  apply roundF64_lt_grid _ 22 _ (by linarith) (by norm_num) hx
  rw [hk]
  norm_num
  norm_num at f1
  linarith

theorem roundF64_add_le_succ (h : ℤ) (f : ℚ) (h0 : 0 ≤ h) (h1 : h < 2 ^ 22) (f0 : 0 ≤ f)
    (f1 : f ≤ 1) : roundF64 ((h : ℚ) + f) ≤ (h : ℚ) + 1 := by
  have hq0 : (0 : ℚ) ≤ h := by exact_mod_cast h0
  have hq1 : (h : ℚ) < 2 ^ 22 := by exact_mod_cast h1
  have hx : (h : ℚ) + f < 2 ^ (23 : ℤ) := by
    norm_num
    norm_num at hq1
    linarith
  have hk : (((h + 1) * 2 ^ 30 : ℤ) : ℚ) * 2 ^ ((23 : ℤ) - 53) = (h : ℚ) + 1 := by
    push_cast
    norm_num
    ring
  rw [← hk]
  apply roundF64_le_grid _ 23 _ (by linarith) (by norm_num) hx
  rw [hk]
  linarith

/-- The conversion `int(d.Hours())` of a non-negative duration `d` gives its
whole hours or one more; it gives the whole hours when `d` is at least a
microsecond short of the next whole hour. -/
theorem truncToInt_hours_cases (d : ℤ) (h0 : 0 ≤ d) (hd : d ≤ 2 ^ 63) :
    (truncToInt (Duration.Hours d) = d / Hour ∨ truncToInt (Duration.Hours d) = d / Hour + 1)
      ∧ (d % Hour + 1000 ≤ Hour → truncToInt (Duration.Hours d) = d / Hour) := by
  have hH : (0 : ℤ) < Hour := by decide
  have hHv : Hour = 3600000000000 := rfl
  have hh0 : 0 ≤ d / Hour := Int.ediv_nonneg h0 hH.le
  have hh1 : d / Hour < 2 ^ 22 := by
    apply Int.ediv_lt_of_lt_mul hH
    omega
  have hn0 : 0 ≤ d % Hour := Int.emod_nonneg d (by decide)
  have hn1 : d % Hour < Hour := Int.emod_lt_of_pos d hH
  obtain ⟨hf0, hf1⟩ := frac_bounds (d % Hour) hn0 hn1
  have hf2 : roundF64 (((d % Hour : ℤ) : ℚ) / 3600000000000) ≤ 1 := by
    norm_num at hf1
    linarith
  rw [hours_of_nonneg d h0 hd]
  have hlo := le_roundF64_add (d / Hour) _ hh0 hh1 hf0 hf2
  have hup := roundF64_add_le_succ (d / Hour) _ hh0 hh1 hf0 hf2
  have hnn : (0 : ℚ) ≤ roundF64 (((d / Hour : ℤ) : ℚ)
      + roundF64 (((d % Hour : ℤ) : ℚ) / 3600000000000)) := by
    have : (0 : ℚ) ≤ ((d / Hour : ℤ) : ℚ) := by exact_mod_cast hh0
    linarith
  unfold truncToInt
  rw [if_pos hnn]
  constructor
  · rcases hup.lt_or_eq with hlt | heq
    · exact Or.inl (Int.floor_eq_iff.mpr ⟨hlo, hlt⟩)
    · right
      rw [heq]
      have : ((d / Hour : ℤ) : ℚ) + 1 = ((d / Hour + 1 : ℤ) : ℚ) := by push_cast; ring
      rw [this, Int.floor_intCast]
  · intro hm
    have hhi := roundF64_add_lt_of_margin (d / Hour) _ hh0 hh1 hf0
      (frac_le_of_margin (d % Hour) hn0 hm)
    exact Int.floor_eq_iff.mpr ⟨hlo, hhi⟩

/-- The days computed from a non-negative duration `d`: the whole 24-hour
periods of `d` or one more, and the whole 24-hour periods when `d` is shorter
than 4096 hours, or not in the last hour of a 24-hour period, or at least a
microsecond short of the next whole hour. -/
theorem days_of_nonneg (d : ℤ) (h0 : 0 ≤ d) (hd : d ≤ 2 ^ 63) :
    (Int.tdiv (truncToInt (Duration.Hours d)) 24 = d / (24 * Hour)
        ∨ Int.tdiv (truncToInt (Duration.Hours d)) 24 = d / (24 * Hour) + 1)
      ∧ ((d / Hour < 4096 ∨ d / Hour % 24 ≠ 23 ∨ d % Hour + 1000 ≤ Hour) →
          Int.tdiv (truncToInt (Duration.Hours d)) 24 = d / (24 * Hour)) := by
  have hHv : Hour = 3600000000000 := rfl
  have hh0 : 0 ≤ d / Hour := Int.ediv_nonneg h0 (by decide)
  have hdays : d / (24 * Hour) = d / Hour / 24 := by
    rw [hHv]
    omega
  obtain ⟨hcases, hmargin⟩ := truncToInt_hours_cases d h0 hd
  rw [hdays]
  constructor
  · rcases hcases with h | h
    · left
      rw [h, Int.tdiv_eq_ediv hh0 (by decide)]
    · rw [h, Int.tdiv_eq_ediv (by omega) (by decide)]
      omega
  · rintro (h | h | h)
    · rw [truncToInt_hours d h0 hd (Or.inl h), Int.tdiv_eq_ediv hh0 (by decide)]
    · rcases hcases with h2 | h2
      · rw [h2, Int.tdiv_eq_ediv hh0 (by decide)]
      · rw [h2, Int.tdiv_eq_ediv (by omega) (by decide)]
        omega
    · rw [hmargin h, Int.tdiv_eq_ediv hh0 (by decide)]

/-! ## Days since seeding -/

section Days

variable {ρ μ : Type}

/-- What `CalculateDaysSinceSeeding` returns, in terms of the clock reading. -/
theorem calculateDaysSinceSeeding_eq (c : Crop ρ μ) (w : World) :
    (CalculateDaysSinceSeeding c w).1
      = Int.tdiv (truncToInt (Duration.Hours (Time.Sub (w.clock w.clockCalls) c.CreatedDate))) 24 :=
  rfl

/-- The days computed from a non-negative difference of less than 4096
hours. -/
theorem days_of_small (t u : ℤ) (h0 : u ≤ t) (h1 : t - u < 4096 * Hour) :
    Int.tdiv (truncToInt (Duration.Hours (Time.Sub t u))) 24 = (t - u) / (24 * Hour) := by
  have hHv : Hour = 3600000000000 := rfl
  have hmin : minDuration = -(2 ^ 63 : ℤ) := rfl
  have hmax : maxDuration = 2 ^ 63 - 1 := rfl
  have hd0 : 0 ≤ t - u := by omega
  have hsub : Time.Sub t u = t - u := by
    have hn1 : ¬ (t - u < minDuration) := by omega
    have hn2 : ¬ (maxDuration < t - u) := by omega
    unfold Time.Sub
    rw [if_neg hn1, if_neg hn2]
  have hhour : (t - u) / Hour < 4096 := Int.ediv_lt_of_lt_mul (by decide) h1
  have hd1 : t - u ≤ 2 ^ 63 := by omega
  rw [hsub, truncToInt_hours (t - u) hd0 hd1 (Or.inl hhour),
    Int.tdiv_eq_ediv (Int.ediv_nonneg hd0 (by decide)) (by decide), hHv]
  omega

/-- What `Sub` returns for a non-negative difference: the difference, capped
at the largest Duration. -/
theorem sub_of_le (t u : ℤ) (h0 : u ≤ t) :
    ∃ d : ℤ, Time.Sub t u = d ∧ 0 ≤ d ∧ d ≤ 2 ^ 63
      ∧ (t - u ≤ maxDuration → d = t - u) ∧ (maxDuration < t - u → d = maxDuration) := by
  have hmin : minDuration = -(2 ^ 63 : ℤ) := rfl
  have hmax : maxDuration = 2 ^ 63 - 1 := rfl
  have hn1 : ¬ (t - u < minDuration) := by omega
  by_cases h2 : maxDuration < t - u
  · refine ⟨maxDuration, ?_, ?_, ?_, ?_, fun _ => rfl⟩
    · unfold Time.Sub
      rw [if_neg hn1, if_pos h2]
    · omega
    · omega
    · intro h
      omega
  · refine ⟨t - u, ?_, ?_, ?_, fun _ => rfl, fun h => absurd h h2⟩
    · unfold Time.Sub
      rw [if_neg hn1, if_neg h2]
    · omega
    · omega

/-- What `Sub` returns for a negative difference: the difference, capped at
the smallest Duration. -/
theorem sub_of_lt (t u : ℤ) (h0 : t < u) :
    ∃ a : ℤ, -Time.Sub t u = a ∧ 0 ≤ a ∧ a ≤ 2 ^ 63
      ∧ (u - t ≤ 2 ^ 63 → a = u - t) ∧ (2 ^ 63 < u - t → a = 2 ^ 63) := by
  have hmin : minDuration = -(2 ^ 63 : ℤ) := rfl
  have hmax : maxDuration = 2 ^ 63 - 1 := rfl
  by_cases h1 : t - u < minDuration
  · refine ⟨2 ^ 63, ?_, ?_, ?_, ?_, fun _ => rfl⟩
    · unfold Time.Sub
      rw [if_pos h1]
      rfl
    · omega
    · omega
    · intro h
      omega
  · have hn2 : ¬ (maxDuration < t - u) := by omega
    refine ⟨u - t, ?_, ?_, ?_, fun _ => rfl, ?_⟩
    · unfold Time.Sub
      rw [if_neg h1, if_neg hn2]
      ring
    · omega
    · omega
    · intro h
      omega

theorem lt_4096_hours_of_lt_day (x : ℤ) (h : x < 24 * Hour) : x < 4096 * Hour := by
  have hHv : Hour = 3600000000000 := rfl
  omega

/-- The days computed from a non-positive duration are the negation of the
days computed from its magnitude. -/
theorem days_neg (d : ℤ) :
    Int.tdiv (truncToInt (Duration.Hours d)) 24
      = -Int.tdiv (truncToInt (Duration.Hours (-d))) 24 := by
  rw [hours_neg, truncToInt_neg, Int.neg_tdiv, neg_neg]

/-- C11, amended: for every Crop and every current time `now` with
`now ≥ CreatedDate`, let `d` be the Duration `now.Sub(CreatedDate)`, which is
`now - CreatedDate` capped at the largest Duration. `CalculateDaysSinceSeeding`
returns `floor(d / 24h)` or one more. It returns `floor(d / 24h)`, the number
of whole 24-hour periods in `d`, whenever `d` is shorter than 4096 hours, or
`d` is not in the last hour of a 24-hour period, or `d` is at least a
microsecond short of the next whole hour. So it returns
`floor((now - CreatedDate) / 24h)` when less than 4096 hours have elapsed, 0
when less than 24 hours have elapsed and 2 when exactly 50 hours have
elapsed. -/
theorem calculateDaysSinceSeeding_elapsed (c : Crop ρ μ) (w : World)
    (h0 : c.CreatedDate ≤ w.clock w.clockCalls) :
    ((w.clock w.clockCalls - c.CreatedDate ≤ maxDuration →
          Time.Sub (w.clock w.clockCalls) c.CreatedDate
            = w.clock w.clockCalls - c.CreatedDate)
        ∧ (maxDuration < w.clock w.clockCalls - c.CreatedDate →
          Time.Sub (w.clock w.clockCalls) c.CreatedDate = maxDuration))
      ∧ ((CalculateDaysSinceSeeding c w).1
            = Time.Sub (w.clock w.clockCalls) c.CreatedDate / (24 * Hour)
          ∨ (CalculateDaysSinceSeeding c w).1
            = Time.Sub (w.clock w.clockCalls) c.CreatedDate / (24 * Hour) + 1)
      ∧ ((Time.Sub (w.clock w.clockCalls) c.CreatedDate / Hour < 4096
            ∨ Time.Sub (w.clock w.clockCalls) c.CreatedDate / Hour % 24 ≠ 23
            ∨ Time.Sub (w.clock w.clockCalls) c.CreatedDate % Hour + 1000 ≤ Hour) →
          (CalculateDaysSinceSeeding c w).1
            = Time.Sub (w.clock w.clockCalls) c.CreatedDate / (24 * Hour))
      ∧ (w.clock w.clockCalls - c.CreatedDate < 4096 * Hour →
          (CalculateDaysSinceSeeding c w).1
            = (w.clock w.clockCalls - c.CreatedDate) / (24 * Hour))
      ∧ (w.clock w.clockCalls - c.CreatedDate < 24 * Hour →
          (CalculateDaysSinceSeeding c w).1 = 0)
      ∧ (w.clock w.clockCalls - c.CreatedDate = 50 * Hour →
          (CalculateDaysSinceSeeding c w).1 = 2) := by
  have hHv : Hour = 3600000000000 := rfl
  have hd0 : (0 : ℤ) ≤ w.clock w.clockCalls - c.CreatedDate := Int.sub_nonneg_of_le h0
  obtain ⟨d, hd, hs0, hs1, hfit, hcap⟩ := sub_of_le (w.clock w.clockCalls) c.CreatedDate h0
  obtain ⟨hcases, hexact⟩ := days_of_nonneg d hs0 hs1
  have hsmall : w.clock w.clockCalls - c.CreatedDate < 4096 * Hour →
      (CalculateDaysSinceSeeding c w).1
        = (w.clock w.clockCalls - c.CreatedDate) / (24 * Hour) := by
    intro h
    rw [calculateDaysSinceSeeding_eq]
    exact days_of_small (w.clock w.clockCalls) c.CreatedDate h0 h
  rw [calculateDaysSinceSeeding_eq, hd]
  rw [calculateDaysSinceSeeding_eq, hd] at hsmall
  refine ⟨⟨hfit, hcap⟩, hcases, hexact, hsmall, ?_, ?_⟩
  · intro h
    rw [hsmall (lt_4096_hours_of_lt_day _ h)]
    exact Int.ediv_eq_zero_of_lt hd0 h
  · intro h
    have h4 : w.clock w.clockCalls - c.CreatedDate < 4096 * Hour := by
      rw [h]
      decide
    rw [hsmall h4, h]
    decide

/-- C20, amended: for every Crop whose `CreatedDate` lies in the future, let
`a` be the negation of the Duration `now.Sub(CreatedDate)`, which is
`CreatedDate - now` capped at `2 ^ 63` nanoseconds.
`CalculateDaysSinceSeeding` has no failure mode and returns `-floor(a / 24h)`
or one less. It returns `-floor(a / 24h)`, rounding toward zero, whenever `a`
is shorter than 4096 hours, or `a` is not in the last hour of a 24-hour period,
or `a` is at least a microsecond short of the next whole hour. So it returns
`-floor((CreatedDate - now) / 24h)` when `CreatedDate` is less than 4096 hours
ahead, 0 when it is less than 24 hours ahead and -2 when it is exactly 50 hours
ahead. And for every two calls whose differences `now - CreatedDate` are `d`
and `-d`, the result of the one is the negation of the result of the other. -/
theorem calculateDaysSinceSeeding_future (c : Crop ρ μ) (w : World) :
    (w.clock w.clockCalls < c.CreatedDate →
        ((c.CreatedDate - w.clock w.clockCalls ≤ 2 ^ 63 →
              -Time.Sub (w.clock w.clockCalls) c.CreatedDate
                = c.CreatedDate - w.clock w.clockCalls)
            ∧ (2 ^ 63 < c.CreatedDate - w.clock w.clockCalls →
              -Time.Sub (w.clock w.clockCalls) c.CreatedDate = 2 ^ 63))
          ∧ ((CalculateDaysSinceSeeding c w).1
                = -(-Time.Sub (w.clock w.clockCalls) c.CreatedDate / (24 * Hour))
              ∨ (CalculateDaysSinceSeeding c w).1
                = -(-Time.Sub (w.clock w.clockCalls) c.CreatedDate / (24 * Hour) + 1))
          ∧ ((-Time.Sub (w.clock w.clockCalls) c.CreatedDate / Hour < 4096
                ∨ -Time.Sub (w.clock w.clockCalls) c.CreatedDate / Hour % 24 ≠ 23
                ∨ -Time.Sub (w.clock w.clockCalls) c.CreatedDate % Hour + 1000 ≤ Hour) →
              (CalculateDaysSinceSeeding c w).1
                = -(-Time.Sub (w.clock w.clockCalls) c.CreatedDate / (24 * Hour)))
          ∧ (c.CreatedDate - w.clock w.clockCalls < 4096 * Hour →
              (CalculateDaysSinceSeeding c w).1
                = -((c.CreatedDate - w.clock w.clockCalls) / (24 * Hour)))
          ∧ (c.CreatedDate - w.clock w.clockCalls < 24 * Hour →
              (CalculateDaysSinceSeeding c w).1 = 0)
          ∧ (c.CreatedDate - w.clock w.clockCalls = 50 * Hour →
              (CalculateDaysSinceSeeding c w).1 = -2))
      ∧ ∀ (c2 : Crop ρ μ) (w2 : World),
          w2.clock w2.clockCalls - c2.CreatedDate
              = -(w.clock w.clockCalls - c.CreatedDate) →
          (CalculateDaysSinceSeeding c2 w2).1 = -(CalculateDaysSinceSeeding c w).1 := by
  have hHv : Hour = 3600000000000 := rfl
  constructor
  · intro h0
    have hd0 : (0 : ℤ) ≤ c.CreatedDate - w.clock w.clockCalls := Int.sub_nonneg_of_le h0.le
    obtain ⟨a, ha, hs0, hs1, hfit, hcap⟩ := sub_of_lt (w.clock w.clockCalls) c.CreatedDate h0
    obtain ⟨hcases, hexact⟩ := days_of_nonneg a hs0 hs1
    have hneg := days_neg (Time.Sub (w.clock w.clockCalls) c.CreatedDate)
    rw [ha] at hneg
    have hsmall : c.CreatedDate - w.clock w.clockCalls < 4096 * Hour →
        (CalculateDaysSinceSeeding c w).1
          = -((c.CreatedDate - w.clock w.clockCalls) / (24 * Hour)) := by
      intro h1
      have hswap := days_sub_swap c.CreatedDate (w.clock w.clockCalls) (w.clock w.clockCalls)
        c.CreatedDate (by ring)
      rw [calculateDaysSinceSeeding_eq, hswap,
        days_of_small c.CreatedDate (w.clock w.clockCalls) h0.le h1]
    rw [ha]
    refine ⟨⟨hfit, hcap⟩, ?_, ?_, hsmall, ?_, ?_⟩
    · rw [calculateDaysSinceSeeding_eq, hneg]
      rcases hcases with h | h
      · exact Or.inl (congrArg Neg.neg h)
      · exact Or.inr (congrArg Neg.neg h)
    · intro h
      rw [calculateDaysSinceSeeding_eq, hneg, hexact h]
    · intro h
      rw [hsmall (lt_4096_hours_of_lt_day _ h), Int.ediv_eq_zero_of_lt hd0 h]
      rfl
    · intro h
      have h4 : c.CreatedDate - w.clock w.clockCalls < 4096 * Hour := by
        rw [h]
        decide
      rw [hsmall h4, h]
      decide
  · intro c2 w2 h
    rw [calculateDaysSinceSeeding_eq, calculateDaysSinceSeeding_eq]
    exact days_sub_swap _ _ _ _ h

end Days

/-- C11 fails as stated. One nanosecond short of 171 days after `CreatedDate`,
`diff.Hours()` is the float64 4104 and `CalculateDaysSinceSeeding` returns 171,
while 170 whole 24-hour periods have elapsed. And when `now - CreatedDate`
exceeds the largest Duration, here with `now - CreatedDate = 10 ^ 19` ns,
`Sub` returns the largest Duration and the result is 106751, while 115740 whole
24-hour periods have elapsed. -/
theorem calculateDaysSinceSeeding_elapsed_counterexample :
    (sampleCrop.CreatedDate ≤ 14774400000000049
        ∧ (CalculateDaysSinceSeeding sampleCrop (worldAt 14774400000000049)).1 = 171
        ∧ (14774400000000049 - sampleCrop.CreatedDate) / (24 * Hour) = 170)
      ∧ (sampleCrop.CreatedDate ≤ 10000000000000000050
        ∧ (CalculateDaysSinceSeeding sampleCrop (worldAt 10000000000000000050)).1 = 106751
        ∧ (10000000000000000050 - sampleCrop.CreatedDate) / (24 * Hour) = 115740) := by
  refine ⟨⟨by decide, ?_, by decide⟩, by decide, ?_, by decide⟩
  · have hsub : Time.Sub (14774400000000049 : ℤ) sampleCrop.CreatedDate = 14774399999999999 := by
      decide
    rw [calculateDaysSinceSeeding_eq]
    show Int.tdiv (truncToInt (Duration.Hours
      (Time.Sub (14774400000000049 : ℤ) sampleCrop.CreatedDate))) 24 = 171
    rw [hsub, hours_171_days_less_1ns]
    have h := truncToInt_intCast 4104
    norm_num at h
    rw [h]
    decide
  · have hsub : Time.Sub (10000000000000000050 : ℤ) sampleCrop.CreatedDate = maxDuration := by
      decide
    rw [calculateDaysSinceSeeding_eq]
    show Int.tdiv (truncToInt (Duration.Hours
      (Time.Sub (10000000000000000050 : ℤ) sampleCrop.CreatedDate))) 24 = 106751
    rw [hsub]
    exact days_at_saturation.1

/-- Instances of the amended C11 at the sample crop, created at the instant
50: read exactly 200 days later, beyond 4096 hours, the result is 200; read
exactly 50 hours later it is 2. -/
theorem calculateDaysSinceSeeding_elapsed_witness :
    (CalculateDaysSinceSeeding sampleCrop (worldAt 17280000000000050)).1 = 200
      ∧ (CalculateDaysSinceSeeding sampleCrop (worldAt 180000000000050)).1 = 2 :=
  ⟨((calculateDaysSinceSeeding_elapsed sampleCrop (worldAt 17280000000000050)
        (by decide)).2.2.1 (Or.inr (Or.inl (by decide)))).trans (by decide),
    (calculateDaysSinceSeeding_elapsed sampleCrop (worldAt 180000000000050)
        (by decide)).2.2.2.2.2 (by decide)⟩

/-- C20 fails as stated. With `CreatedDate` one nanosecond short of 171 days
ahead of `now`, `CalculateDaysSinceSeeding` returns -171, while `CreatedDate -
now` holds 170 whole 24-hour periods. -/
theorem calculateDaysSinceSeeding_future_counterexample :
    (50 : ℤ) < sampleFutureCrop.CreatedDate
      ∧ (CalculateDaysSinceSeeding sampleFutureCrop (worldAt 50)).1 = -171
      ∧ -((sampleFutureCrop.CreatedDate - 50) / (24 * Hour)) = -170 := by
  refine ⟨by decide, ?_, by decide⟩
  have hsub : Time.Sub (50 : ℤ) sampleFutureCrop.CreatedDate = -14774399999999999 := by
    decide
  rw [calculateDaysSinceSeeding_eq]
  show Int.tdiv (truncToInt (Duration.Hours (Time.Sub (50 : ℤ) sampleFutureCrop.CreatedDate))) 24
    = -171
  rw [hsub, hours_neg, truncToInt_neg, Int.neg_tdiv, hours_171_days_less_1ns]
  have h := truncToInt_intCast 4104
  norm_num at h
  rw [h]
  decide

/-- Instances of the amended C20: with `CreatedDate` exactly 200 days ahead of
the clock, beyond 4096 hours, the result is -200; with `CreatedDate` exactly 50
hours ahead it is -2, the negation of the result for the sample crop read 50
hours after its creation. -/
theorem calculateDaysSinceSeeding_future_witness :
    (CalculateDaysSinceSeeding sampleFarAheadCrop (worldAt 50)).1 = -200
      ∧ (CalculateDaysSinceSeeding sampleAheadCrop (worldAt 50)).1 = -2
      ∧ (CalculateDaysSinceSeeding sampleCrop (worldAt 180000000000050)).1
          = -(CalculateDaysSinceSeeding sampleAheadCrop (worldAt 50)).1 :=
  ⟨(((calculateDaysSinceSeeding_future sampleFarAheadCrop (worldAt 50)).1
        (by decide)).2.2.1 (Or.inr (Or.inl (by decide)))).trans (by decide),
    ((calculateDaysSinceSeeding_future sampleAheadCrop (worldAt 50)).1
        (by decide)).2.2.2.2.2 (by decide),
    (calculateDaysSinceSeeding_future sampleAheadCrop (worldAt 50)).2
      sampleCrop (worldAt 180000000000050) (by decide)⟩

end Tania
